import Mathlib

/-!
Shallow embedding of the PRECOG-Edge core pipeline
(`safety.py`, `predictor.py`, `state_estimator.py`) and proofs about it.

Conventions of the embedding:
* Python floats are modelled as exact rationals (`ℚ`); the square root in
  `math.hypot` / `np.hypot` is modelled through `Real.sqrt`.  Every strict
  comparison `hypot dx dy < b` that the source performs is embedded as the
  equivalent rational test `0 < b ∧ dx^2 + dy^2 < b^2` (the equivalence is
  proved in `hypotR_lt_iff` below), which keeps the scan functions
  computable.
* Python `int(x)` (truncation toward zero) is `pyTrunc`; Python `round`
  (banker's rounding, half to even) is `pyRound`.
* A raised exception (`np.linalg.LinAlgError` from `np.linalg.inv` on a
  singular matrix) is modelled as `Option.none`, propagated through the
  callers with `Option.bind`, exactly as an uncaught Python exception
  propagates.
-/

/-- Python `int(x)`: truncation toward zero. -/
def pyTrunc (q : ℚ) : ℤ := if 0 ≤ q then ⌊q⌋ else ⌈q⌉

/-- Python `round(x)`: round half to even (banker's rounding). -/
def pyRound (q : ℚ) : ℤ :=
  if q - ⌊q⌋ < 1/2 then ⌊q⌋
  else if 1/2 < q - ⌊q⌋ then ⌊q⌋ + 1
  else if Even ⌊q⌋ then ⌊q⌋ else ⌊q⌋ + 1

/-- `math.hypot dx dy` / `np.hypot dx dy` as a real number. -/
noncomputable def hypotR (dx dy : ℚ) : ℝ := Real.sqrt ((dx ^ 2 + dy ^ 2 : ℚ) : ℝ)

/-- Squared Euclidean distance between two points, in `ℚ`. -/
def dist2 (ax ay bx by_ : ℚ) : ℚ := (ax - bx) ^ 2 + (ay - by_) ^ 2

/-! ## safety.py -/

/-- `CollisionEvent` dataclass: details about a predicted collision.
`severity` is a real number because the source computes it from a square
root (`math.hypot`). -/
structure CollisionEvent where
  track_id : ℤ
  impact_frame : ℕ
  impact_point : ℤ × ℤ
  severity : ℝ

/-- `SafetyMonitor.__init__` merely stores the zone geometry (no validation). -/
structure SafetyMonitor where
  zone_center : ℚ × ℚ
  radius : ℚ

/-- `SafetyMonitor(zone_center, radius)`: the constructor stores its two
arguments verbatim and performs no validation whatsoever. -/
def mkSafetyMonitor (zone_center : ℚ × ℚ) (radius : ℚ) : SafetyMonitor :=
  ⟨zone_center, radius⟩

/-- The loop body of `SafetyMonitor.check_track`: scan `future_points` with
running index `i` (the `enumerate` counter).  The test
`0 < radius ∧ dist2 … < radius ^ 2` is exactly `math.hypot(fx-cx, fy-cy) <
radius` (see `hypotR_lt_iff`); on a hit the source returns
`CollisionEvent(track_id, i + 1, (int(fx), int(fy)), max(0, 1 - dist/radius))`. -/
noncomputable def checkTrackGo (m : SafetyMonitor) (track_id : ℤ) :
    List (ℚ × ℚ) → ℕ → Option CollisionEvent
  | [], _ => none
  | p :: ps, i =>
      let d2 := dist2 p.1 p.2 m.zone_center.1 m.zone_center.2
      if 0 < m.radius ∧ d2 < m.radius ^ 2 then
        some { track_id := track_id
               impact_frame := i + 1
               impact_point := (pyTrunc p.1, pyTrunc p.2)
               severity := max 0 (1 - Real.sqrt (d2 : ℝ) / (m.radius : ℝ)) }
      else checkTrackGo m track_id ps (i + 1)

/-- `SafetyMonitor.check_track(track_id, future_points)`. -/
noncomputable def SafetyMonitor.check_track (m : SafetyMonitor) (track_id : ℤ)
    (future_points : List (ℚ × ℚ)) : Option CollisionEvent :=
  checkTrackGo m track_id future_points 0

/-- The sort key relation used by `events.sort(key=lambda e: e.impact_frame)`. -/
def byImpact (a b : CollisionEvent) : Prop := a.impact_frame ≤ b.impact_frame

instance : DecidableRel byImpact := fun a b => Nat.decLe a.impact_frame b.impact_frame

instance : IsTotal CollisionEvent byImpact :=
  ⟨fun a b => Nat.le_total a.impact_frame b.impact_frame⟩

instance : IsTrans CollisionEvent byImpact :=
  ⟨fun _ _ _ h1 h2 => Nat.le_trans h1 h2⟩

/-- `SafetyMonitor.check_all(tracks)`: collect the per-track events in
iteration order (Python dicts iterate in insertion order, embedded here as an
association list) and sort them ascending by `impact_frame`.  Python's
`list.sort` is stable; `List.insertionSort` is the stable ascending sort. -/
noncomputable def SafetyMonitor.check_all (m : SafetyMonitor)
    (tracks : List (ℤ × List (ℚ × ℚ))) : List CollisionEvent :=
  (tracks.filterMap fun t => m.check_track t.1 t.2).insertionSort byImpact

/-- `main.py`: `danger = len(events) > 0`. -/
def danger (events : List CollisionEvent) : Prop := 0 < events.length

/-! ## predictor.py -/

/-- `predict_linear(cx, cy, vx, vy, horizon)`:
`[(cx + vx*t, cy + vy*t) for t in range(1, horizon+1)]`. -/
def predict_linear (cx cy vx vy : ℚ) (horizon : ℕ) : List (ℚ × ℚ) :=
  (List.range horizon).map fun (k : ℕ) =>
    (cx + vx * ((k : ℚ) + 1), cy + vy * ((k : ℚ) + 1))

/-- Default value of the `horizon` parameter of `predict_linear` and
`TrajectoryPredictor.__init__` in `predictor.py`. -/
def defaultPredictorHorizon : ℕ := 30

/-- `HORIZON` configured in `main.py` and passed to every
`TrajectoryPredictor(history_len=8, horizon=HORIZON)`. -/
def HORIZON : ℕ := 40

/-- `collections.deque(maxlen=m).append v`: append on the right, evicting
from the left whatever exceeds the capacity. -/
def dqAppend (maxlen : ℕ) (l : List ℚ) (v : ℚ) : List ℚ :=
  let l2 := l ++ [v]
  l2.drop (l2.length - maxlen)

/-- `np.diff`: consecutive differences. -/
def npDiff (l : List ℚ) : List ℚ := List.zipWith (fun a b => b - a) l l.tail

/-- `np.mean` of a list (only ever applied to nonempty lists here; on `[]`
numpy would produce NaN, here `0/0 = 0`). -/
def npMean (l : List ℚ) : ℚ := l.sum / (l.length : ℚ)

/-- `np.clip(x, lo, hi)`. -/
def npClip (x lo hi : ℚ) : ℚ := if x < lo then lo else if hi < x then hi else x

/-- `MAX_A = 2.0` acceleration clamp in `update_and_predict`. -/
def MAX_A : ℚ := 2

/-- `TrajectoryPredictor` state: forecast horizon, history capacity, and the
two bounded velocity histories (deques of `maxlen = history_len`). -/
structure TrajectoryPredictor where
  horizon : ℕ
  history_len : ℕ
  vx_hist : List ℚ
  vy_hist : List ℚ

/-- `TrajectoryPredictor(history_len, horizon)`: stores the two sizes and
starts with empty velocity histories; no validation is performed. -/
def mkTrajectoryPredictor (history_len horizon : ℕ) : TrajectoryPredictor :=
  ⟨horizon, history_len, [], []⟩

/-- `TrajectoryPredictor.update_and_predict(cx, cy, vx, vy)`: append the
velocity sample; with fewer than 2 samples fall back to `predict_linear`,
otherwise extrapolate quadratically with the clamped mean consecutive
velocity difference as acceleration.  Returns the updated predictor state
and the forecast. -/
def TrajectoryPredictor.update_and_predict (p : TrajectoryPredictor)
    (cx cy vx vy : ℚ) : TrajectoryPredictor × List (ℚ × ℚ) :=
  let vxh := dqAppend p.history_len p.vx_hist vx
  let vyh := dqAppend p.history_len p.vy_hist vy
  let p' : TrajectoryPredictor := ⟨p.horizon, p.history_len, vxh, vyh⟩
  if vxh.length < 2 then
    (p', predict_linear cx cy vx vy p.horizon)
  else
    let ax := npClip (npMean (npDiff vxh)) (-MAX_A) MAX_A
    let ay := npClip (npMean (npDiff vyh)) (-MAX_A) MAX_A
    (p', (List.range p.horizon).map fun (k : ℕ) =>
      (cx + vx * ((k : ℚ) + 1) + 1/2 * ax * (((k : ℚ) + 1) * ((k : ℚ) + 1)),
       cy + vy * ((k : ℚ) + 1) + 1/2 * ay * (((k : ℚ) + 1) * ((k : ℚ) + 1))))

/-! ## state_estimator.py -/

/-- State transition matrix `F` with `dt = 1`. -/
def Fmat : Matrix (Fin 4) (Fin 4) ℚ :=
  !![1, 0, 1, 0;
     0, 1, 0, 1;
     0, 0, 1, 0;
     0, 0, 0, 1]

/-- Observation matrix `H`: only `(x, y)` is measured. -/
def Hmat : Matrix (Fin 2) (Fin 4) ℚ :=
  !![1, 0, 0, 0;
     0, 1, 0, 0]

/-- Process noise covariance `Q = np.eye(4) * 1.0`. -/
def Qmat : Matrix (Fin 4) (Fin 4) ℚ := (1 : ℚ) • 1

/-- Measurement noise covariance `R = np.eye(2) * 10.0`. -/
def Rmat : Matrix (Fin 2) (Fin 2) ℚ := (10 : ℚ) • 1

/-- Initial covariance `P = np.eye(4) * 500.0`. -/
def P0 : Matrix (Fin 4) (Fin 4) ℚ := (500 : ℚ) • 1

/-- `self.max_missed = 10` (set in `ObjectKalman.__init__`, never changed). -/
def MAX_MISSED : ℕ := 10

/-- `np.linalg.inv` for the 2-by-2 innovation covariance (adjugate formula;
only ever used on the branch where the determinant is nonzero — on a
singular matrix `np.linalg.inv` raises `LinAlgError`). -/
def inv2 (S : Matrix (Fin 2) (Fin 2) ℚ) : Matrix (Fin 2) (Fin 2) ℚ :=
  (S.det)⁻¹ • !![S 1 1, -(S 0 1); -(S 1 0), S 0 0]

/-- `ObjectKalman` mutable state: state vector `x = [x, y, vx, vy]`,
covariance `P`, and the age counters. -/
structure ObjectKalman where
  x : Fin 4 → ℚ
  P : Matrix (Fin 4) (Fin 4) ℚ
  age : ℕ
  missed : ℕ

/-- `ObjectKalman(cx, cy)`: initial state `[cx, cy, 0, 0]`, covariance `P0`,
`age = 0`, `missed = 0`. -/
def ObjectKalman.init (cx cy : ℚ) : ObjectKalman :=
  ⟨![cx, cy, 0, 0], P0, 0, 0⟩

/-- `ObjectKalman.predict`: `x ← F x`, `P ← F P Fᵀ + Q`, and both counters
increment (the source also returns the flattened state, unused by its
caller). -/
def ObjectKalman.predict (k : ObjectKalman) : ObjectKalman :=
  ⟨Fmat.mulVec k.x, Fmat * k.P * Fmat.transpose + Qmat, k.age + 1, k.missed + 1⟩

/-- `ObjectKalman.update(cx, cy)`: Kalman correction with the measured
position.  `np.linalg.inv(S)` raises `LinAlgError` when `S` is singular;
that raised exception is modelled as `none`. -/
def ObjectKalman.update (k : ObjectKalman) (cx cy : ℚ) : Option ObjectKalman :=
  let z : Fin 2 → ℚ := ![cx, cy]
  let S := Hmat * k.P * Hmat.transpose + Rmat
  if S.det = 0 then none
  else
    let K := k.P * Hmat.transpose * inv2 S
    let y := z - Hmat.mulVec k.x
    some ⟨k.x + K.mulVec y, (1 - K * Hmat) * k.P, k.age, 0⟩

/-- `ObjectKalman.position` property. -/
def ObjectKalman.position (k : ObjectKalman) : ℚ × ℚ := (k.x 0, k.x 1)

/-- `ObjectKalman.velocity` property. -/
def ObjectKalman.velocity (k : ObjectKalman) : ℚ × ℚ := (k.x 2, k.x 3)

/-- `ObjectKalman.speed` property: `np.hypot(vx, vy)`. -/
noncomputable def ObjectKalman.speed (k : ObjectKalman) : ℝ :=
  hypotR (k.x 2) (k.x 3)

/-- `ObjectKalman.stale` property: `missed >= max_missed`. -/
def ObjectKalman.stale (k : ObjectKalman) : Bool := MAX_MISSED ≤ k.missed

/-- An observation `(cx, cy, w, h)` from the sensor component. -/
def Obs : Type := ℚ × ℚ × ℚ × ℚ

/-- `StateEstimator` state: the parallel lists `tracks` / `track_ids`, the
association threshold, and the next fresh identifier. -/
structure StateEstimator where
  tracks : List ObjectKalman
  track_ids : List ℤ
  max_distance : ℚ
  next_id : ℤ

/-- `StateEstimator(max_distance)`. -/
def mkStateEstimator (max_distance : ℚ) : StateEstimator :=
  ⟨[], [], max_distance, 0⟩

/-- The inner loop of step 2 of `StateEstimator.update`: scan `tracks` from
running index `ti`, skipping already-matched indices, keeping the running
best `(best_dist², best_tidx)`.  `best = none` encodes the source's initial
`best_dist = max_distance, best_tidx = -1`; the first acceptance test
`np.hypot(cx-tx, cy-ty) < max_distance` is embedded as
`0 < md ∧ d2 < md ^ 2` and later tests `dist < best_dist` as `d2 < best.1`
(see `hypotR_lt_iff` and `hypotR_lt_hypotR_iff`). -/
def scanTracksGo (cx cy md : ℚ) (mT : List ℕ) :
    List ObjectKalman → ℕ → Option (ℚ × ℕ) → Option (ℚ × ℕ)
  | [], _, best => best
  | t :: ts, ti, best =>
      if ti ∈ mT then scanTracksGo cx cy md mT ts (ti + 1) best
      else
        let d2 := dist2 cx cy (t.x 0) (t.x 1)
        let better : Bool :=
          match best with
          | none => decide (0 < md ∧ d2 < md ^ 2)
          | some b => decide (d2 < b.1)
        if better then scanTracksGo cx cy md mT ts (ti + 1) (some (d2, ti))
        else scanTracksGo cx cy md mT ts (ti + 1) best

/-- Step-2 inner loop over the whole track list (index from 0, no best yet). -/
def scanTracks (cx cy md : ℚ) (mT : List ℕ) (tracks : List ObjectKalman) :
    Option (ℚ × ℕ) :=
  scanTracksGo cx cy md mT tracks 0 none

/-- Step 2 of `StateEstimator.update`: greedy nearest-neighbour association
over the detections in input order.  On a match, `update(cx, cy)` is called
on the winning track (the `none` of a raised `LinAlgError` propagates) and
both indices are marked consumed.  Returns the updated track list plus the
matched track / detection index sets. -/
def associateGo (md : ℚ) :
    List Obs → ℕ → List ObjectKalman → List ℕ → List ℕ →
    Option (List ObjectKalman × List ℕ × List ℕ)
  | [], _, tracks, mT, mD => some (tracks, mT, mD)
  | d :: ds, di, tracks, mT, mD =>
      match scanTracks d.1 d.2.1 md mT tracks with
      | none => associateGo md ds (di + 1) tracks mT mD
      | some b => do
          let t ← tracks.get? b.2
          let t' ← t.update d.1 d.2.1
          associateGo md ds (di + 1) (tracks.set b.2 t') (mT ++ [b.2]) (mD ++ [di])

/-- Step 2, starting from detection index 0 with nothing matched. -/
def associate (md : ℚ) (dets : List Obs) (tracks : List ObjectKalman) :
    Option (List ObjectKalman × List ℕ × List ℕ) :=
  associateGo md dets 0 tracks [] []

/-- Step 3 of `StateEstimator.update`: birth a new track (and identifier)
for every detection index not in `mD`, in input order. -/
def birthGo : List Obs → ℕ → List ℕ → List ObjectKalman → List ℤ → ℤ →
    List ObjectKalman × List ℤ × ℤ
  | [], _, _, tracks, ids, nid => (tracks, ids, nid)
  | d :: ds, di, mD, tracks, ids, nid =>
      if di ∈ mD then birthGo ds (di + 1) mD tracks ids nid
      else birthGo ds (di + 1) mD (tracks ++ [ObjectKalman.init d.1 d.2.1])
        (ids ++ [nid]) (nid + 1)

/-- Insert-or-assign into the step-5 detection-size dictionary: Python dict
keys keep their first-insertion position, later writes overwrite the value. -/
def dmInsert (m : List ((ℤ × ℤ) × (ℚ × ℚ))) (k : ℤ × ℤ) (v : ℚ × ℚ) :
    List ((ℤ × ℤ) × (ℚ × ℚ)) :=
  if m.any fun e => e.1 = k then m.map fun e => if e.1 = k then (k, v) else e
  else m ++ [(k, v)]

/-- Step 5: `det_map = {(round(cx), round(cy)): (w, h) for (cx, cy, w, h) in
detections}`. -/
def buildDetMap (dets : List Obs) : List ((ℤ × ℤ) × (ℚ × ℚ)) :=
  dets.foldl (fun m d => dmInsert m (pyRound d.1, pyRound d.2.1) (d.2.2.1, d.2.2.2)) []

/-- Step 6's inner loop: nearest-detection size lookup for one track at
position `(px, py)`.  The accumulator holds `(best_d², best_wh)`; the
source's `best_d = 9999` initialisation and test `np.hypot(px-dcx, py-dcy)
< best_d` become `best_d² = 9999 ^ 2` and `d2 < best_d²` (see
`hypotR_lt_iff`; `9999 > 0`). -/
def sizeLookup (dm : List ((ℤ × ℤ) × (ℚ × ℚ))) (px py : ℚ) : ℚ × ℚ :=
  (dm.foldl
    (fun best e =>
      let d2 := dist2 px py (e.1.1 : ℚ) (e.1.2 : ℚ)
      if d2 < best.1 then (d2, e.2) else best)
    ((9999 : ℚ) ^ 2, (40, 40))).2

/-- One live-track snapshot dict
`{id, cx, cy, vx, vy, speed, w, h, age}`. -/
structure TrackState where
  id : ℤ
  cx : ℚ
  cy : ℚ
  vx : ℚ
  vy : ℚ
  speed : ℝ
  w : ℚ
  h : ℚ
  age : ℕ

/-- Step 6: build the snapshot for one live track. -/
noncomputable def snapshot (dm : List ((ℤ × ℤ) × (ℚ × ℚ)))
    (t : ObjectKalman) (tid : ℤ) : TrackState :=
  let wh := sizeLookup dm (t.x 0) (t.x 1)
  ⟨tid, t.x 0, t.x 1, t.x 2, t.x 3, t.speed, wh.1, wh.2, t.age⟩

/-- Steps 1–4 of `StateEstimator.update` (the state transition): predict all
tracks, associate, birth, prune.  `none` models a `LinAlgError` escaping
from `ObjectKalman.update`. -/
def seStep (st : StateEstimator) (dets : List Obs) : Option StateEstimator := do
  let tracks1 := st.tracks.map ObjectKalman.predict
  let r ← associate st.max_distance dets tracks1
  let b := birthGo dets 0 r.2.2 r.1 st.track_ids st.next_id
  let alive := (b.1.zip b.2.1).filter fun p => ¬ p.1.stale
  some ⟨alive.map Prod.fst, alive.map Prod.snd, st.max_distance, b.2.2⟩

/-- `StateEstimator.update(detections)`: the full per-frame call — the state
transition of `seStep` followed by steps 5–6, returning the new estimator
state and the list of live-track snapshots. -/
noncomputable def StateEstimator.update (st : StateEstimator) (dets : List Obs) :
    Option (StateEstimator × List TrackState) := do
  let st' ← seStep st dets
  let dm := buildDetMap dets
  some (st', (st'.tracks.zip st'.track_ids).map fun p => snapshot dm p.1 p.2)

/-- Iterate `seStep` on frames with an empty detection list. -/
def emptyFrames : ℕ → StateEstimator → Option StateEstimator
  | 0, st => some st
  | n + 1, st => (seStep st []).bind (emptyFrames n)

/-- The pool-consistency invariant that `StateEstimator` maintains: the two
parallel lists have equal length, identifiers are pairwise distinct, and
every identifier already handed out is below `next_id`. -/
def SEInv (st : StateEstimator) : Prop :=
  st.tracks.length = st.track_ids.length ∧ st.track_ids.Nodup ∧
    ∀ i ∈ st.track_ids, i < st.next_id

/-- The spec's "Euclidean distance of a forecast point to the zone center is
strictly less than the zone radius". -/
noncomputable def insideZone (m : SafetyMonitor) (p : ℚ × ℚ) : Prop :=
  hypotR (p.1 - m.zone_center.1) (p.2 - m.zone_center.2) < (m.radius : ℝ)

/-- Euclidean distance between an observation center and a track's estimated
position. -/
noncomputable def obsDistR (cx cy : ℚ) (t : ObjectKalman) : ℝ :=
  hypotR (cx - t.x 0) (cy - t.x 1)

/-- Squared distance from an observation center to a track's estimated
position (the quantity compared by the association scan). -/
def trackDist2 (cx cy : ℚ) (t : ObjectKalman) : ℚ := dist2 cx cy (t.x 0) (t.x 1)

/-! ## Bridging lemmas between real-valued distances and the rational
square tests used by the embedded scans -/

theorem hypotR_nonneg (dx dy : ℚ) : 0 ≤ hypotR dx dy := Real.sqrt_nonneg _

/-- `hypot dx dy < b` over the reals is the rational test
`0 < b ∧ dx² + dy² < b²`. -/
theorem hypotR_lt_iff (dx dy b : ℚ) :
    hypotR dx dy < (b : ℝ) ↔ 0 < b ∧ dx ^ 2 + dy ^ 2 < b ^ 2 := by
  unfold hypotR
  rcases le_or_lt b 0 with hb | hb
  · constructor
    · intro h
      have : (b : ℝ) ≤ 0 := by exact_mod_cast hb
      exact absurd (lt_of_le_of_lt (Real.sqrt_nonneg _) h) (not_lt.mpr this)
    · rintro ⟨h1, _⟩
      exact absurd h1 (not_lt.mpr hb)
  · have hb' : (0 : ℝ) < (b : ℝ) := by exact_mod_cast hb
    rw [Real.sqrt_lt' hb']
    constructor
    · intro h
      refine ⟨hb, ?_⟩
      exact_mod_cast h
    · rintro ⟨_, h⟩
      exact_mod_cast h

/-- Comparing two Euclidean distances is comparing the squared distances. -/
theorem hypotR_lt_hypotR_iff (dx dy ex ey : ℚ) :
    hypotR dx dy < hypotR ex ey ↔ dx ^ 2 + dy ^ 2 < ex ^ 2 + ey ^ 2 := by
  unfold hypotR
  rw [Real.sqrt_lt_sqrt_iff (by positivity)]
  exact_mod_cast Iff.rfl

theorem hypotR_le_hypotR_iff (dx dy ex ey : ℚ) :
    hypotR dx dy ≤ hypotR ex ey ↔ dx ^ 2 + dy ^ 2 ≤ ex ^ 2 + ey ^ 2 := by
  constructor
  · intro h
    by_contra hc
    exact absurd ((hypotR_lt_hypotR_iff ex ey dx dy).mpr (lt_of_not_le hc)) (not_lt.mpr h)
  · intro h
    by_contra hc
    exact absurd ((hypotR_lt_hypotR_iff ex ey dx dy).mp (lt_of_not_le hc)) (not_lt.mpr h)

/-! ## C1: SafetyMonitor.check_track -/

theorem insideZone_iff (m : SafetyMonitor) (p : ℚ × ℚ) :
    insideZone m p ↔
      0 < m.radius ∧ dist2 p.1 p.2 m.zone_center.1 m.zone_center.2 < m.radius ^ 2 := by
  unfold insideZone dist2
  exact hypotR_lt_iff _ _ _

theorem checkTrackGo_none_iff (m : SafetyMonitor) (tid : ℤ) :
    ∀ (pts : List (ℚ × ℚ)) (i : ℕ),
      (checkTrackGo m tid pts i = none ↔ ∀ p ∈ pts, ¬ insideZone m p)
  | [], i => by simp [checkTrackGo]
  | p :: ps, i => by
      by_cases h : 0 < m.radius ∧ dist2 p.1 p.2 m.zone_center.1 m.zone_center.2 < m.radius ^ 2
      · simp only [checkTrackGo, if_pos h]
        constructor
        · intro hc
          exact absurd hc (by simp)
        · intro hall
          exact absurd ((insideZone_iff m p).mpr h) (hall p (List.mem_cons_self p ps))
      · simp only [checkTrackGo, if_neg h]
        rw [checkTrackGo_none_iff m tid ps (i + 1)]
        constructor
        · intro hall q hq
          rcases List.mem_cons.mp hq with rfl | hq'
          · exact fun hin => h ((insideZone_iff m q).mp hin)
          · exact hall q hq'
        · intro hall q hq
          exact hall q (List.mem_cons_of_mem p hq)

theorem checkTrackGo_first (m : SafetyMonitor) (tid : ℤ) :
    ∀ (pts : List (ℚ × ℚ)) (i j : ℕ) (hj : j < pts.length),
      (∀ l (hl : l < j), ¬ insideZone m (pts.get ⟨l, lt_trans hl hj⟩)) →
      insideZone m (pts.get ⟨j, hj⟩) →
      checkTrackGo m tid pts i = some
        { track_id := tid
          impact_frame := i + j + 1
          impact_point :=
            (pyTrunc (pts.get ⟨j, hj⟩).1, pyTrunc (pts.get ⟨j, hj⟩).2)
          severity := max 0 (1 -
            hypotR ((pts.get ⟨j, hj⟩).1 - m.zone_center.1)
              ((pts.get ⟨j, hj⟩).2 - m.zone_center.2) / (m.radius : ℝ)) }
  | [], i, j, hj => by simp at hj
  | p :: ps, i, 0, hj => by
      intro _ hin
      have h := (insideZone_iff m p).mp (by simpa using hin)
      simp only [checkTrackGo, if_pos h]
      rfl
  | p :: ps, i, j + 1, hj => by
      intro hbefore hin
      have h0 : ¬ insideZone m p := by
        simpa using hbefore 0 (Nat.succ_pos j)
      have h0' : ¬ (0 < m.radius ∧
          dist2 p.1 p.2 m.zone_center.1 m.zone_center.2 < m.radius ^ 2) :=
        fun hc => h0 ((insideZone_iff m p).mpr hc)
      simp only [checkTrackGo, if_neg h0']
      have hj' : j < ps.length := Nat.lt_of_succ_lt_succ hj
      have hrec := checkTrackGo_first m tid ps (i + 1) j hj'
        (fun l hl => by simpa using hbefore (l + 1) (Nat.succ_lt_succ hl))
        (by simpa using hin)
      rw [show i + (j + 1) + 1 = i + 1 + j + 1 from by omega]
      exact hrec

/-- C1 (amended): `check_track` scans the forecast nearest-frame first and
returns no event exactly when no point is strictly inside the zone; at the
first point strictly inside the zone it returns the event with 1-based
`impact_frame`, the point's coordinates truncated toward zero to integers
(Python `int()`), and `severity = max(0, 1 − distance/radius)`; later
intersections are never reported. -/
theorem check_track_first_intersection :
    (∀ (m : SafetyMonitor) (tid : ℤ) (pts : List (ℚ × ℚ)),
        m.check_track tid pts = none ↔ ∀ p ∈ pts, ¬ insideZone m p) ∧
    (∀ (m : SafetyMonitor) (tid : ℤ) (pts : List (ℚ × ℚ)) (j : ℕ)
        (hj : j < pts.length),
      (∀ l (hl : l < j), ¬ insideZone m (pts.get ⟨l, lt_trans hl hj⟩)) →
      insideZone m (pts.get ⟨j, hj⟩) →
      m.check_track tid pts = some
        { track_id := tid
          impact_frame := j + 1
          impact_point :=
            (pyTrunc (pts.get ⟨j, hj⟩).1, pyTrunc (pts.get ⟨j, hj⟩).2)
          severity := max 0 (1 -
            hypotR ((pts.get ⟨j, hj⟩).1 - m.zone_center.1)
              ((pts.get ⟨j, hj⟩).2 - m.zone_center.2) / (m.radius : ℝ)) }) := by
  constructor
  · intro m tid pts
    exact checkTrackGo_none_iff m tid pts 0
  · intro m tid pts j hj hbefore hin
    have h := checkTrackGo_first m tid pts 0 j hj hbefore hin
    simpa using h

/-- Witness for C1 at the spec's concrete scenario: zone center (320,240),
radius 120, forecast from (100,240) moving +40 units/frame in x; the first
intersecting point is the 3rd, (220,240), at distance 100, so
`impact_frame = 3` and `severity = 1 - 100/120`. -/
theorem check_track_first_intersection_witness :
    (mkSafetyMonitor (320, 240) 120).check_track 7 (predict_linear 100 240 40 0 40) =
      some ⟨7, 3, (220, 240), (1 - 100 / 120 : ℝ)⟩ := by
  have hlen : (2 : ℕ) < (predict_linear 100 240 40 0 40).length := by
    simp only [predict_linear, List.length_map, List.length_range]
    norm_num
  have hget : ∀ (l : ℕ) (hl : l < (predict_linear 100 240 40 0 40).length),
      (predict_linear 100 240 40 0 40).get ⟨l, hl⟩ =
        (100 + 40 * ((l : ℚ) + 1), 240) := by
    intro l hl
    simp only [predict_linear, List.get_eq_getElem, List.getElem_map, List.getElem_range]
    norm_num
  have h := check_track_first_intersection.2 (mkSafetyMonitor (320, 240) 120) 7
    (predict_linear 100 240 40 0 40) 2 hlen
    (by
      intro l hl
      rw [hget]
      rw [insideZone_iff]
      interval_cases l <;> norm_num [mkSafetyMonitor, dist2])
    (by
      rw [hget]
      rw [insideZone_iff]
      norm_num [mkSafetyMonitor, dist2])
  rw [hget 2 hlen] at h
  simp only [mkSafetyMonitor] at h
  unfold mkSafetyMonitor
  rw [h]
  have hsqrt : hypotR (100 + 40 * (((2 : ℕ) : ℚ) + 1) - 320) (240 - 240) = 100 := by
    unfold hypotR
    rw [show (100 + 40 * (((2 : ℕ) : ℚ) + 1) - 320) ^ 2 + (240 - 240 : ℚ) ^ 2 = 10000 by
      norm_num]
    rw [show ((10000 : ℚ) : ℝ) = 100 ^ 2 by norm_num]
    exact Real.sqrt_sq (by norm_num)
  rw [hsqrt]
  have htr : pyTrunc (100 + 40 * (((2 : ℕ) : ℚ) + 1)) = 220 := by
    norm_num [pyTrunc]
  rw [htr]
  have htr2 : pyTrunc (240 : ℚ) = 240 := by
    norm_num [pyTrunc]
  rw [htr2]
  rw [show ((120 : ℚ) : ℝ) = (120 : ℝ) by norm_num]
  rw [max_eq_right (by norm_num : (0 : ℝ) ≤ 1 - 100 / 120)]

/-- Counterexample for C1 as stated: for the forecast point
`(300.5, 240.5)` (which lies strictly inside the zone of center (320,240),
radius 120), the returned `impact_point` is `(300, 240)` — the coordinates
truncated by Python's `int()` — and not the point itself. -/
theorem check_track_trunc_counterexample :
    ∃ ev : CollisionEvent,
      (mkSafetyMonitor (320, 240) 120).check_track 0 [(601/2, 481/2)] = some ev ∧
        ((ev.impact_point.1 : ℚ), (ev.impact_point.2 : ℚ)) ≠
          ((601/2 : ℚ), (481/2 : ℚ)) := by
  refine ⟨⟨0, 1, (300, 240),
    max 0 (1 - Real.sqrt ((dist2 (601/2) (481/2) 320 240 : ℚ) : ℝ) /
      ((120 : ℚ) : ℝ))⟩, ?_, ?_⟩
  · show checkTrackGo (mkSafetyMonitor (320, 240) 120) 0 [(601/2, 481/2)] 0 = _
    unfold checkTrackGo mkSafetyMonitor
    rw [if_pos (by norm_num [dist2])]
    have h1 : pyTrunc (601/2) = 300 := by norm_num [pyTrunc]
    have h2 : pyTrunc (481/2) = 240 := by norm_num [pyTrunc]
    simp only [h1, h2]
  · intro hc
    have := congrArg Prod.fst hc
    norm_num at this

/-! ## C10: configuration is accepted without validation -/

/-- C10 (amended): neither constructor validates its configuration — both
store the given values and succeed for every input; the degenerate
configurations are silently absorbed instead: a monitor with non-positive
radius never reports an event, and a predictor with a zero horizon returns
an empty forecast. -/
theorem no_config_validation :
    (∀ (zc : ℚ × ℚ) (r : ℚ), mkSafetyMonitor zc r = ⟨zc, r⟩) ∧
    (∀ hl h : ℕ, mkTrajectoryPredictor hl h = ⟨h, hl, [], []⟩) ∧
    (∀ m : SafetyMonitor, m.radius ≤ 0 → ∀ (tid : ℤ) (pts : List (ℚ × ℚ)),
        m.check_track tid pts = none) ∧
    (∀ p : TrajectoryPredictor, p.horizon = 0 → ∀ cx cy vx vy : ℚ,
        (p.update_and_predict cx cy vx vy).2 = []) := by
  refine ⟨fun zc r => rfl, fun hl h => rfl, ?_, ?_⟩
  · intro m hr tid pts
    exact (checkTrackGo_none_iff m tid pts 0).mpr fun p _ hin =>
      absurd ((insideZone_iff m p).mp hin).1 (not_lt.mpr hr)
  · intro p h cx cy vx vy
    simp only [TrajectoryPredictor.update_and_predict]
    rw [h]
    split
    · simp [predict_linear]
    · simp

/-- Witness for C10 (amended): a monitor built with radius −5 reports no
event even for a point at the zone center, and a predictor built with
horizon 0 returns the empty forecast. -/
theorem no_config_validation_witness :
    (mkSafetyMonitor (320, 240) (-5)).check_track 3 [(320, 240)] = none ∧
      ((mkTrajectoryPredictor 8 0).update_and_predict 0 0 1 1).2 = [] :=
  ⟨no_config_validation.2.2.1 (mkSafetyMonitor (320, 240) (-5))
      (by norm_num [mkSafetyMonitor]) 3 [(320, 240)],
    no_config_validation.2.2.2 (mkTrajectoryPredictor 8 0) rfl 0 0 1 1⟩

/-- Counterexample for C10 as stated: construction with a non-positive
radius, and with a zero horizon, succeeds and silently stores the invalid
values — there is no rejection path in either constructor. -/
theorem config_accepted_counterexample :
    mkSafetyMonitor (320, 240) (-5) = ⟨(320, 240), -5⟩ ∧
      mkTrajectoryPredictor 8 0 = ⟨0, 8, [], []⟩ :=
  ⟨rfl, rfl⟩

/-! ## C5 and C6: TrajectoryPredictor.update_and_predict -/

theorem npDiff_eq_zero_of_const :
    ∀ (l : List ℚ) (c : ℚ), (∀ v ∈ l, v = c) → ∀ d ∈ npDiff l, d = 0
  | [], _, _ => by simp [npDiff]
  | [a], _, _ => by simp [npDiff]
  | a :: b :: rest, c, h => by
      intro d hd
      have ha := h a (by simp)
      have hb := h b (by simp)
      unfold npDiff at hd
      simp only [List.tail_cons, List.zipWith_cons_cons] at hd
      rcases List.mem_cons.mp hd with rfl | hd'
      · rw [ha, hb]; ring
      · exact npDiff_eq_zero_of_const (b :: rest) c
          (fun v hv => h v (List.mem_cons_of_mem a hv)) d
          (by simpa [npDiff] using hd')

theorem npMean_eq_zero_of_const (l : List ℚ) (c : ℚ) (h : ∀ v ∈ l, v = c) :
    npMean (npDiff l) = 0 := by
  unfold npMean
  rw [List.sum_eq_zero (npDiff_eq_zero_of_const l c h)]
  simp

theorem npClip_zero : npClip 0 (-MAX_A) MAX_A = 0 := by
  norm_num [npClip, MAX_A]

/-- C5 (confirmed): after appending the velocity sample to the bounded
histories, `update_and_predict` uses the linear model when fewer than two
samples exist and otherwise the quadratic model with the clamped mean of
consecutive velocity differences as per-axis acceleration; for histories of
identical samples the quadratic forecast collapses exactly to the linear
forecast. -/
theorem forecast_model_selection (p : TrajectoryPredictor) (cx cy vx vy : ℚ) :
    (p.update_and_predict cx cy vx vy).1 =
      ⟨p.horizon, p.history_len, dqAppend p.history_len p.vx_hist vx,
        dqAppend p.history_len p.vy_hist vy⟩ ∧
    ((dqAppend p.history_len p.vx_hist vx).length < 2 →
      (p.update_and_predict cx cy vx vy).2 = predict_linear cx cy vx vy p.horizon) ∧
    (2 ≤ (dqAppend p.history_len p.vx_hist vx).length →
      (p.update_and_predict cx cy vx vy).2 =
        (List.range p.horizon).map fun (k : ℕ) =>
          (cx + vx * ((k : ℚ) + 1) +
              1/2 * npClip (npMean (npDiff (dqAppend p.history_len p.vx_hist vx)))
                (-MAX_A) MAX_A * (((k : ℚ) + 1) * ((k : ℚ) + 1)),
           cy + vy * ((k : ℚ) + 1) +
              1/2 * npClip (npMean (npDiff (dqAppend p.history_len p.vy_hist vy)))
                (-MAX_A) MAX_A * (((k : ℚ) + 1) * ((k : ℚ) + 1)))) ∧
    ((∀ v ∈ dqAppend p.history_len p.vx_hist vx, v = vx) →
     (∀ v ∈ dqAppend p.history_len p.vy_hist vy, v = vy) →
      (p.update_and_predict cx cy vx vy).2 = predict_linear cx cy vx vy p.horizon) := by
  refine ⟨?_, ?_, ?_, ?_⟩
  · simp only [TrajectoryPredictor.update_and_predict]
    split <;> rfl
  · intro hlt
    simp only [TrajectoryPredictor.update_and_predict]
    rw [if_pos hlt]
  · intro hge
    simp only [TrajectoryPredictor.update_and_predict]
    rw [if_neg (not_lt.mpr hge)]
  · intro hcx hcy
    by_cases hlt : (dqAppend p.history_len p.vx_hist vx).length < 2
    · simp only [TrajectoryPredictor.update_and_predict]
      rw [if_pos hlt]
    · simp only [TrajectoryPredictor.update_and_predict]
      rw [if_neg hlt]
      rw [npMean_eq_zero_of_const _ vx hcx, npMean_eq_zero_of_const _ vy hcy]
      rw [npClip_zero]
      unfold predict_linear
      simp [mul_assoc]

/-- Witness for C5: with velocity history `[2, 2]` on x (all equal to the
new sample 2) and `[0, 0]` on y, the quadratic forecast equals the linear
forecast exactly. -/
theorem forecast_model_selection_witness :
    ((⟨3, 8, [2, 2], [0, 0]⟩ : TrajectoryPredictor).update_and_predict 10 20 2 0).2 =
      predict_linear 10 20 2 0 3 :=
  (forecast_model_selection ⟨3, 8, [2, 2], [0, 0]⟩ 10 20 2 0).2.2.2
    (by
      intro v hv
      simp [dqAppend] at hv
      tauto)
    (by
      intro v hv
      simp [dqAppend] at hv
      tauto)

/-- C6 (confirmed): for every predictor state and input, the returned
forecast has exactly `horizon` points, and the `j`-th point (0-based) is the
model's position for frame `j + 1` — the sequence is ordered
nearest-frame-first; `main.py` configures `HORIZON = 40`. -/
theorem forecast_exact_horizon (p : TrajectoryPredictor) (cx cy vx vy : ℚ) :
    ((p.update_and_predict cx cy vx vy).2).length = p.horizon ∧
    (∃ ax ay : ℚ, ∀ (j : ℕ) (hj : j < ((p.update_and_predict cx cy vx vy).2).length),
      ((p.update_and_predict cx cy vx vy).2).get ⟨j, hj⟩ =
        (cx + vx * ((j : ℚ) + 1) + 1/2 * ax * (((j : ℚ) + 1) * ((j : ℚ) + 1)),
         cy + vy * ((j : ℚ) + 1) + 1/2 * ay * (((j : ℚ) + 1) * ((j : ℚ) + 1)))) ∧
    HORIZON = 40 := by
  refine ⟨?_, ?_, rfl⟩
  · simp only [TrajectoryPredictor.update_and_predict]
    split
    · simp [predict_linear]
    · simp
  · by_cases hlt : (dqAppend p.history_len p.vx_hist vx).length < 2
    · have h2 : (p.update_and_predict cx cy vx vy).2 =
          predict_linear cx cy vx vy p.horizon := by
        simp only [TrajectoryPredictor.update_and_predict]
        rw [if_pos hlt]
      refine ⟨0, 0, ?_⟩
      intro j hj
      simp only [List.get_eq_getElem]
      simp only [h2, predict_linear, List.getElem_map, List.getElem_range] at hj ⊢
      simp only [Prod.mk.injEq]
      constructor <;> ring
    · have h2 : (p.update_and_predict cx cy vx vy).2 =
          (List.range p.horizon).map fun (k : ℕ) =>
            (cx + vx * ((k : ℚ) + 1) +
                1/2 * npClip (npMean (npDiff (dqAppend p.history_len p.vx_hist vx)))
                  (-MAX_A) MAX_A * (((k : ℚ) + 1) * ((k : ℚ) + 1)),
             cy + vy * ((k : ℚ) + 1) +
                1/2 * npClip (npMean (npDiff (dqAppend p.history_len p.vy_hist vy)))
                  (-MAX_A) MAX_A * (((k : ℚ) + 1) * ((k : ℚ) + 1))) := by
        simp only [TrajectoryPredictor.update_and_predict]
        rw [if_neg hlt]
      refine ⟨npClip (npMean (npDiff (dqAppend p.history_len p.vx_hist vx)))
          (-MAX_A) MAX_A,
        npClip (npMean (npDiff (dqAppend p.history_len p.vy_hist vy)))
          (-MAX_A) MAX_A, ?_⟩
      intro j hj
      simp only [List.get_eq_getElem]
      simp only [h2, List.getElem_map, List.getElem_range] at hj ⊢

/-- Witness for C6: a fresh predictor with horizon 2 returns exactly 2
points, and its 2nd point is the model position for frame 2. -/
theorem forecast_exact_horizon_witness :
    (((mkTrajectoryPredictor 8 2).update_and_predict 5 6 1 2).2).length = 2 ∧
      ∃ ax ay : ℚ, (((mkTrajectoryPredictor 8 2).update_and_predict 5 6 1 2).2).get? 1 =
        some (5 + 1 * ((1 : ℚ) + 1) + 1/2 * ax * (((1 : ℚ) + 1) * ((1 : ℚ) + 1)),
          6 + 2 * ((1 : ℚ) + 1) + 1/2 * ay * (((1 : ℚ) + 1) * ((1 : ℚ) + 1))) := by
  have h := forecast_exact_horizon (mkTrajectoryPredictor 8 2) 5 6 1 2
  refine ⟨h.1, ?_⟩
  obtain ⟨ax, ay, hf⟩ := h.2.1
  refine ⟨ax, ay, ?_⟩
  have h1 : (1 : ℕ) < (((mkTrajectoryPredictor 8 2).update_and_predict 5 6 1 2).2).length := by
    rw [h.1]
    norm_num [mkTrajectoryPredictor]
  rw [List.get?_eq_get h1, hf 1 h1]
  norm_num

/-! ## C3: singular innovation covariance in ObjectKalman.update -/

/-- The innovation covariance `S = H P Hᵀ + R` in closed form: the top-left
2×2 block of `P` plus `10·I`. -/
theorem innovation_cov_eq (P : Matrix (Fin 4) (Fin 4) ℚ) :
    Hmat * P * Hmat.transpose + Rmat =
      !![P 0 0 + 10, P 0 1; P 1 0, P 1 1 + 10] := by
  ext i j
  fin_cases i <;> fin_cases j <;>
    simp [Hmat, Rmat, Matrix.mul_apply, Matrix.vecMul, Matrix.dotProduct,
      Matrix.transpose_apply, Fin.sum_univ_four, Matrix.smul_apply, Matrix.one_apply,
      Matrix.of_apply, Matrix.vecHead, Matrix.vecTail]

/-- C3 (amended): `ObjectKalman.update` has no numeric guard — it fails
(`np.linalg.inv` raises `LinAlgError`, modelled as `none`) exactly when the
innovation covariance is singular, and the per-frame `seStep` merely
forwards that failure through `Option.bind` instead of skipping the update
and keeping the predict-only state. -/
theorem update_singular_raises :
    (∀ (k : ObjectKalman) (cx cy : ℚ),
        (k.update cx cy = none ↔ (Hmat * k.P * Hmat.transpose + Rmat).det = 0)) ∧
    (∀ (st : StateEstimator) (dets : List Obs),
        seStep st dets = (associate st.max_distance dets
            (st.tracks.map ObjectKalman.predict)).bind fun r =>
          some ⟨((birthGo dets 0 r.2.2 r.1 st.track_ids st.next_id).1.zip
                (birthGo dets 0 r.2.2 r.1 st.track_ids st.next_id).2.1
              |>.filter fun p => ¬ p.1.stale).map Prod.fst,
            ((birthGo dets 0 r.2.2 r.1 st.track_ids st.next_id).1.zip
                (birthGo dets 0 r.2.2 r.1 st.track_ids st.next_id).2.1
              |>.filter fun p => ¬ p.1.stale).map Prod.snd,
            st.max_distance,
            (birthGo dets 0 r.2.2 r.1 st.track_ids st.next_id).2.2⟩) := by
  constructor
  · intro k cx cy
    constructor
    · intro hnone
      by_contra h
      apply absurd hnone
      simp only [ObjectKalman.update]
      rw [if_neg h]
      simp
    · intro h
      simp only [ObjectKalman.update]
      rw [if_pos h]
  · intro st dets
    rfl

/-- The transpose of `F` as a literal matrix. -/
theorem FmatT :
    Fmat.transpose = !![1,0,0,0; 0,1,0,0; 1,0,1,0; 0,1,0,1] := by
  ext i j
  fin_cases i <;> fin_cases j <;>
    simp [Fmat, Matrix.transpose_apply, Matrix.vecHead, Matrix.vecTail]

/-- Counterexample for C3 as stated: at a filter state whose innovation
covariance is singular (`P` top-left block = −10·I, so `S = 0`), `update`
does not skip and keep the post-predict state — it fails (`LinAlgError`,
modelled as `none`); and for a pool holding a track that becomes singular
after `predict`, the whole per-frame `seStep` fails, i.e. the error is
propagated to the caller. -/
theorem singular_update_counterexample :
    ((⟨![0,0,0,0], !![-10,0,0,0; 0,-10,0,0; 0,0,0,0; 0,0,0,0], 0, 0⟩ :
        ObjectKalman).update 0 0 = none) ∧
      seStep ⟨[⟨![0,0,0,0], !![-11,0,0,0; 0,-11,0,0; 0,0,0,0; 0,0,0,0], 0, 0⟩], [0], 80, 1⟩
        [(0, 0, 10, 10)] = none := by
  constructor
  · have hdet : (Hmat * (!![-10,0,0,0; 0,-10,0,0; 0,0,0,0; 0,0,0,0] :
        Matrix (Fin 4) (Fin 4) ℚ) * Hmat.transpose + Rmat).det = 0 := by
      rw [innovation_cov_eq]
      norm_num [Matrix.det_fin_two_of]
    simp only [ObjectKalman.update]
    rw [if_pos hdet]
  · have hpred : (⟨![0,0,0,0], !![-11,0,0,0; 0,-11,0,0; 0,0,0,0; 0,0,0,0], 0, 0⟩ :
        ObjectKalman).predict =
        ⟨![0,0,0,0],
          Fmat * !![-11,0,0,0; 0,-11,0,0; 0,0,0,0; 0,0,0,0] * Fmat.transpose + Qmat, 1, 1⟩ := by
      simp only [ObjectKalman.predict]
      congr 1
      funext i
      fin_cases i <;>
        simp [Fmat, Matrix.mulVec, Matrix.dotProduct, Fin.sum_univ_four]
    have hupd : (⟨![0,0,0,0],
        Fmat * !![-11,0,0,0; 0,-11,0,0; 0,0,0,0; 0,0,0,0] * Fmat.transpose + Qmat, 1, 1⟩ :
        ObjectKalman).update 0 0 = none := by
      have e00 : (Fmat * (!![-11,0,0,0; 0,-11,0,0; 0,0,0,0; 0,0,0,0] :
          Matrix (Fin 4) (Fin 4) ℚ) * Fmat.transpose + Qmat) 0 0 = -10 := by
        rw [FmatT]
        simp [Fmat, Qmat, Matrix.mul_apply, Fin.sum_univ_four, Matrix.smul_apply,
          Matrix.one_apply]
        norm_num
      have e01 : (Fmat * (!![-11,0,0,0; 0,-11,0,0; 0,0,0,0; 0,0,0,0] :
          Matrix (Fin 4) (Fin 4) ℚ) * Fmat.transpose + Qmat) 0 1 = 0 := by
        rw [FmatT]
        simp [Fmat, Qmat, Matrix.mul_apply, Fin.sum_univ_four, Matrix.smul_apply,
          Matrix.one_apply]
      have e10 : (Fmat * (!![-11,0,0,0; 0,-11,0,0; 0,0,0,0; 0,0,0,0] :
          Matrix (Fin 4) (Fin 4) ℚ) * Fmat.transpose + Qmat) 1 0 = 0 := by
        rw [FmatT]
        simp [Fmat, Qmat, Matrix.mul_apply, Fin.sum_univ_four, Matrix.smul_apply,
          Matrix.one_apply]
      have e11 : (Fmat * (!![-11,0,0,0; 0,-11,0,0; 0,0,0,0; 0,0,0,0] :
          Matrix (Fin 4) (Fin 4) ℚ) * Fmat.transpose + Qmat) 1 1 = -10 := by
        rw [FmatT]
        simp [Fmat, Qmat, Matrix.mul_apply, Fin.sum_univ_four, Matrix.smul_apply,
          Matrix.one_apply]
        norm_num
      have hdet : (Hmat * (Fmat * (!![-11,0,0,0; 0,-11,0,0; 0,0,0,0; 0,0,0,0] :
          Matrix (Fin 4) (Fin 4) ℚ) * Fmat.transpose + Qmat) * Hmat.transpose +
          Rmat).det = 0 := by
        rw [innovation_cov_eq, Matrix.det_fin_two_of, e00, e01, e10, e11]
        norm_num
      simp only [ObjectKalman.update]
      rw [if_pos hdet]
    simp only [seStep, associate, associateGo, scanTracks, scanTracksGo, List.map]
    rw [hpred]
    simp only [List.mem_nil_iff, if_false, dist2, decide_eq_true_eq]
    simp only [Matrix.cons_val_zero, Matrix.cons_val_one, Matrix.head_cons]
    rw [if_pos (by norm_num : (0:ℚ) < 80 ∧ ((0:ℚ) - 0)^2 + ((0:ℚ) - 0)^2 < 80^2)]
    simp [List.get?, hupd]

/-! ## C7: SafetyMonitor.check_all -/

theorem pairwise_of_all {α : Type} (r : α → α → Prop) :
    ∀ l : List α, (∀ a ∈ l, ∀ b ∈ l, r a b) → l.Pairwise r
  | [], _ => List.Pairwise.nil
  | a :: l, h =>
      List.Pairwise.cons (fun b hb => h a (by simp) b (by simp [hb]))
        (pairwise_of_all r l fun x hx y hy =>
          h x (List.mem_cons_of_mem a hx) y (List.mem_cons_of_mem a hy))

/-- C7 (confirmed): `check_all` returns exactly the events produced by
`check_track` on each track (as a permutation of the collected list), sorted
non-decreasing by `impact_frame`; events with equal `impact_frame` keep
their track-iteration order (the collected sub-sequence of any fixed
`impact_frame` is a sublist of the output); and the frame's danger flag
holds iff some track produced an event. -/
theorem check_all_sorted (m : SafetyMonitor) (tracks : List (ℤ × List (ℚ × ℚ))) :
    (m.check_all tracks).Perm (tracks.filterMap fun t => m.check_track t.1 t.2) ∧
    (m.check_all tracks).Sorted byImpact ∧
    (∀ k : ℕ, List.Sublist ((tracks.filterMap fun t => m.check_track t.1 t.2).filter
        fun e => e.impact_frame == k) (m.check_all tracks)) ∧
    (danger (m.check_all tracks) ↔ ∃ p ∈ tracks, (m.check_track p.1 p.2).isSome) := by
  refine ⟨List.perm_insertionSort byImpact _, List.sorted_insertionSort byImpact _,
    ?_, ?_⟩
  · intro k
    apply List.sublist_insertionSort
    · apply pairwise_of_all
      intro a ha b hb
      have hak := List.of_mem_filter ha
      have hbk := List.of_mem_filter hb
      have ha' : a.impact_frame = k := by simpa using hak
      have hb' : b.impact_frame = k := by simpa using hbk
      unfold byImpact
      rw [ha', hb']
    · exact List.filter_sublist _
  · unfold danger SafetyMonitor.check_all
    rw [List.length_insertionSort]
    constructor
    · intro hlen
      rcases List.exists_mem_of_length_pos hlen with ⟨e, he⟩
      rcases List.mem_filterMap.mp he with ⟨p, hp, hpe⟩
      exact ⟨p, hp, by rw [hpe]; rfl⟩
    · rintro ⟨p, hp, hsome⟩
      rcases Option.isSome_iff_exists.mp hsome with ⟨e, he⟩
      exact List.length_pos_of_mem (List.mem_filterMap.mpr ⟨p, hp, he⟩)

/-! ## Association machinery: characterizing the greedy scan -/

theorem scanTracksGo_spec (cx cy md : ℚ) (mT : List ℕ) :
    ∀ (ts : List ObjectKalman) (i0 : ℕ) (best : Option (ℚ × ℕ)),
      (scanTracksGo cx cy md mT ts i0 best = none ↔
        (best = none ∧ ∀ (j : ℕ) (t : ObjectKalman), ts.get? j = some t →
          (i0 + j) ∉ mT → ¬(0 < md ∧ trackDist2 cx cy t < md ^ 2))) ∧
      (∀ b : ℚ × ℕ, scanTracksGo cx cy md mT ts i0 best = some b →
        ((best = some b ∨ (b.2 ∉ mT ∧ ∃ (j : ℕ) (t : ObjectKalman),
            ts.get? j = some t ∧ i0 + j = b.2 ∧ b.1 = trackDist2 cx cy t ∧
            ((0 < md ∧ b.1 < md ^ 2) ∨ ∃ b0 : ℚ × ℕ, best = some b0 ∧ b.1 < b0.1))) ∧
          (∀ (j : ℕ) (t : ObjectKalman), ts.get? j = some t → (i0 + j) ∉ mT →
            b.1 ≤ trackDist2 cx cy t) ∧
          (∀ b0 : ℚ × ℕ, best = some b0 → b.1 ≤ b0.1))) := by
  intro ts
  induction ts with
  | nil =>
      intro i0 best
      constructor
      · simp [scanTracksGo]
      · intro b hb
        simp only [scanTracksGo] at hb
        refine ⟨Or.inl hb, ?_, ?_⟩
        · intro j t hj
          simp at hj
        · intro b0 hb0
          rw [hb0] at hb
          rw [Option.some.injEq] at hb
          rw [hb]
  | cons t ts ih =>
      intro i0 best
      by_cases hmem : i0 ∈ mT
      · -- skipped index
        have hstep : scanTracksGo cx cy md mT (t :: ts) i0 best =
            scanTracksGo cx cy md mT ts (i0 + 1) best := by
          simp only [scanTracksGo]
          rw [if_pos hmem]
        rw [hstep]
        constructor
        · rw [(ih (i0 + 1) best).1]
          constructor
          · rintro ⟨hb, hall⟩
            refine ⟨hb, ?_⟩
            intro j u hj hnot
            cases j with
            | zero => exact absurd hmem (by simpa using hnot)
            | succ j' =>
                exact hall j' u (by simpa using hj)
                  (by rw [show i0 + 1 + j' = i0 + (j' + 1) from by omega]; exact hnot)
          · rintro ⟨hb, hall⟩
            refine ⟨hb, ?_⟩
            intro j u hj hnot
            exact hall (j + 1) u (by simpa using hj)
              (by rw [show i0 + (j + 1) = i0 + 1 + j from by omega]; exact hnot)
        · intro b hb
          have h := (ih (i0 + 1) best).2 b hb
          refine ⟨?_, ?_, h.2.2⟩
          · rcases h.1 with h1 | ⟨hb2, j, u, hj, hij, hd, halt⟩
            · exact Or.inl h1
            · exact Or.inr ⟨hb2, j + 1, u, by simpa using hj, by omega, hd, halt⟩
          · intro j u hj hnot
            cases j with
            | zero => exact absurd hmem (by simpa using hnot)
            | succ j' =>
                exact h.2.1 j' u (by simpa using hj)
                  (by rw [show i0 + 1 + j' = i0 + (j' + 1) from by omega]; exact hnot)
      · -- index i0 is considered
        cases best with
        | none =>
            by_cases hc : 0 < md ∧ dist2 cx cy (t.x 0) (t.x 1) < md ^ 2
            · have hstep : scanTracksGo cx cy md mT (t :: ts) i0 none =
                  scanTracksGo cx cy md mT ts (i0 + 1)
                    (some (dist2 cx cy (t.x 0) (t.x 1), i0)) := by
                simp only [scanTracksGo]
                rw [if_neg hmem]
                simp only [decide_eq_true_eq]
                rw [if_pos hc]
              rw [hstep]
              constructor
              · rw [(ih (i0 + 1) (some (dist2 cx cy (t.x 0) (t.x 1), i0))).1]
                constructor
                · rintro ⟨h1, _⟩
                  exact Option.noConfusion h1
                · intro hall
                  exact absurd hc (hall.2 0 t (by simp) (by simpa using hmem))
              · intro b hb
                have h := (ih (i0 + 1) (some (dist2 cx cy (t.x 0) (t.x 1), i0))).2 b hb
                refine ⟨?_, ?_, ?_⟩
                · rcases h.1 with h1 | ⟨hb2, j, u, hj, hij, hd, halt⟩
                  · rw [Option.some.injEq] at h1
                    refine Or.inr ⟨by rw [← h1]; exact hmem, 0, t, by simp,
                      by rw [← h1]; simp, by rw [← h1]; rfl, Or.inl ?_⟩
                    rw [← h1]
                    exact hc
                  · refine Or.inr ⟨hb2, j + 1, u, by simpa using hj, by omega, hd, ?_⟩
                    rcases halt with hth | ⟨b0, hb0, hlt⟩
                    · exact Or.inl hth
                    · rw [Option.some.injEq] at hb0
                      exact Or.inl ⟨hc.1, lt_trans (by rw [← hb0] at hlt; exact hlt) hc.2⟩
                · intro j u hj hnot
                  cases j with
                  | zero =>
                      have hu : t = u := by simpa using hj
                      rw [← hu]
                      exact h.2.2 (dist2 cx cy (t.x 0) (t.x 1), i0) rfl
                  | succ j' =>
                      exact h.2.1 j' u (by simpa using hj)
                        (by rw [show i0 + 1 + j' = i0 + (j' + 1) from by omega]; exact hnot)
                · intro b0 hb0
                  exact Option.noConfusion hb0
            · have hstep : scanTracksGo cx cy md mT (t :: ts) i0 none =
                  scanTracksGo cx cy md mT ts (i0 + 1) none := by
                simp only [scanTracksGo]
                rw [if_neg hmem]
                simp only [decide_eq_true_eq]
                rw [if_neg hc]
              rw [hstep]
              constructor
              · rw [(ih (i0 + 1) none).1]
                constructor
                · rintro ⟨-, hall⟩
                  refine ⟨rfl, ?_⟩
                  intro j u hj hnot
                  cases j with
                  | zero =>
                      have hu : t = u := by simpa using hj
                      rw [← hu]
                      exact hc
                  | succ j' =>
                      exact hall j' u (by simpa using hj)
                        (by rw [show i0 + 1 + j' = i0 + (j' + 1) from by omega]; exact hnot)
                · rintro ⟨-, hall⟩
                  refine ⟨rfl, ?_⟩
                  intro j u hj hnot
                  exact hall (j + 1) u (by simpa using hj)
                    (by rw [show i0 + (j + 1) = i0 + 1 + j from by omega]; exact hnot)
              · intro b hb
                have h := (ih (i0 + 1) none).2 b hb
                have hth : 0 < md ∧ b.1 < md ^ 2 := by
                  rcases h.1 with h1 | ⟨-, -, -, -, -, -, halt⟩
                  · exact Option.noConfusion h1
                  · rcases halt with hth | ⟨b0, hb0, -⟩
                    · exact hth
                    · exact Option.noConfusion hb0
                refine ⟨?_, ?_, ?_⟩
                · rcases h.1 with h1 | ⟨hb2, j, u, hj, hij, hd, halt⟩
                  · exact Option.noConfusion h1
                  · exact Or.inr ⟨hb2, j + 1, u, by simpa using hj, by omega, hd,
                      Or.inl hth⟩
                · intro j u hj hnot
                  cases j with
                  | zero =>
                      have hu : t = u := by simpa using hj
                      rw [← hu]
                      have hmd2 : md ^ 2 ≤ dist2 cx cy (t.x 0) (t.x 1) := by
                        by_contra hcon
                        exact hc ⟨hth.1, lt_of_not_le hcon⟩
                      exact le_trans (le_of_lt hth.2) hmd2
                  | succ j' =>
                      exact h.2.1 j' u (by simpa using hj)
                        (by rw [show i0 + 1 + j' = i0 + (j' + 1) from by omega]; exact hnot)
                · intro b0 hb0
                  exact Option.noConfusion hb0
        | some b0 =>
            by_cases hc : dist2 cx cy (t.x 0) (t.x 1) < b0.1
            · have hstep : scanTracksGo cx cy md mT (t :: ts) i0 (some b0) =
                  scanTracksGo cx cy md mT ts (i0 + 1)
                    (some (dist2 cx cy (t.x 0) (t.x 1), i0)) := by
                simp only [scanTracksGo]
                rw [if_neg hmem]
                simp only [decide_eq_true_eq]
                rw [if_pos hc]
              rw [hstep]
              constructor
              · rw [(ih (i0 + 1) (some (dist2 cx cy (t.x 0) (t.x 1), i0))).1]
                constructor
                · rintro ⟨h1, -⟩
                  exact Option.noConfusion h1
                · rintro ⟨h1, -⟩
                  exact Option.noConfusion h1
              · intro b hb
                have h := (ih (i0 + 1) (some (dist2 cx cy (t.x 0) (t.x 1), i0))).2 b hb
                refine ⟨?_, ?_, ?_⟩
                · rcases h.1 with h1 | ⟨hb2, j, u, hj, hij, hd, halt⟩
                  · rw [Option.some.injEq] at h1
                    refine Or.inr ⟨by rw [← h1]; exact hmem, 0, t, by simp,
                      by rw [← h1]; simp, by rw [← h1]; rfl, Or.inr ⟨b0, rfl, ?_⟩⟩
                    rw [← h1]
                    exact hc
                  · refine Or.inr ⟨hb2, j + 1, u, by simpa using hj, by omega, hd, ?_⟩
                    rcases halt with hth | ⟨b0', hb0', hlt⟩
                    · exact Or.inl hth
                    · rw [Option.some.injEq] at hb0'
                      refine Or.inr ⟨b0, rfl, ?_⟩
                      rw [← hb0'] at hlt
                      exact lt_trans hlt hc
                · intro j u hj hnot
                  cases j with
                  | zero =>
                      have hu : t = u := by simpa using hj
                      rw [← hu]
                      exact h.2.2 (dist2 cx cy (t.x 0) (t.x 1), i0) rfl
                  | succ j' =>
                      exact h.2.1 j' u (by simpa using hj)
                        (by rw [show i0 + 1 + j' = i0 + (j' + 1) from by omega]; exact hnot)
                · intro b0' hb0'
                  rw [Option.some.injEq] at hb0'
                  rw [← hb0']
                  exact le_of_lt (lt_of_le_of_lt
                    (h.2.2 (dist2 cx cy (t.x 0) (t.x 1), i0) rfl) hc)
            · have hstep : scanTracksGo cx cy md mT (t :: ts) i0 (some b0) =
                  scanTracksGo cx cy md mT ts (i0 + 1) (some b0) := by
                simp only [scanTracksGo]
                rw [if_neg hmem]
                simp only [decide_eq_true_eq]
                rw [if_neg hc]
              rw [hstep]
              constructor
              · rw [(ih (i0 + 1) (some b0)).1]
                constructor
                · rintro ⟨h1, -⟩
                  exact Option.noConfusion h1
                · rintro ⟨h1, -⟩
                  exact Option.noConfusion h1
              · intro b hb
                have h := (ih (i0 + 1) (some b0)).2 b hb
                refine ⟨?_, ?_, h.2.2⟩
                · rcases h.1 with h1 | ⟨hb2, j, u, hj, hij, hd, halt⟩
                  · exact Or.inl h1
                  · refine Or.inr ⟨hb2, j + 1, u, by simpa using hj, by omega, hd, ?_⟩
                    rcases halt with hth | ⟨b0', hb0', hlt⟩
                    · exact Or.inl hth
                    · exact Or.inr ⟨b0', hb0', hlt⟩
                · intro j u hj hnot
                  cases j with
                  | zero =>
                      have hu : t = u := by simpa using hj
                      rw [← hu]
                      exact le_trans (h.2.2 b0 rfl) (le_of_not_lt hc)
                  | succ j' =>
                      exact h.2.1 j' u (by simpa using hj)
                        (by rw [show i0 + 1 + j' = i0 + (j' + 1) from by omega]; exact hnot)

theorem obsDistR_lt_iff (cx cy md : ℚ) (t : ObjectKalman) :
    obsDistR cx cy t < (md : ℝ) ↔ 0 < md ∧ trackDist2 cx cy t < md ^ 2 := by
  unfold obsDistR trackDist2 dist2
  exact hypotR_lt_iff _ _ _

theorem obsDistR_le_iff (cx cy : ℚ) (t u : ObjectKalman) :
    obsDistR cx cy t ≤ obsDistR cx cy u ↔
      trackDist2 cx cy t ≤ trackDist2 cx cy u := by
  unfold obsDistR trackDist2 dist2
  exact hypotR_le_hypotR_iff _ _ _ _

theorem scanTracks_none_iff (cx cy md : ℚ) (mT : List ℕ) (tracks : List ObjectKalman) :
    scanTracks cx cy md mT tracks = none ↔
      ∀ (j : ℕ) (t : ObjectKalman), tracks.get? j = some t → j ∉ mT →
        ¬(0 < md ∧ trackDist2 cx cy t < md ^ 2) := by
  rw [scanTracks, (scanTracksGo_spec cx cy md mT tracks 0 none).1]
  simp

theorem scanTracks_some (cx cy md : ℚ) (mT : List ℕ) (tracks : List ObjectKalman)
    (b : ℚ × ℕ) (hb : scanTracks cx cy md mT tracks = some b) :
    b.2 ∉ mT ∧ (∃ t, tracks.get? b.2 = some t ∧ b.1 = trackDist2 cx cy t) ∧
      (0 < md ∧ b.1 < md ^ 2) ∧
      ∀ (j : ℕ) (t : ObjectKalman), tracks.get? j = some t → j ∉ mT →
        b.1 ≤ trackDist2 cx cy t := by
  have h := (scanTracksGo_spec cx cy md mT tracks 0 none).2 b hb
  rcases h.1 with h1 | ⟨hb2, j, t, hj, hij, hd, halt⟩
  · exact Option.noConfusion h1
  · have hth : 0 < md ∧ b.1 < md ^ 2 := by
      rcases halt with hth | ⟨b0, hb0, -⟩
      · exact hth
      · exact Option.noConfusion hb0
    refine ⟨hb2, ⟨t, ?_, hd⟩, hth, ?_⟩
    · rw [show b.2 = j from by omega]
      exact hj
    · intro j' t' hj' hnot
      exact h.2.1 j' t' hj' (by simpa using hnot)

/-! ## C4: greedy nearest-neighbour association -/

/-- C4 (confirmed): per observation, the association scan finds a match iff
some not-yet-matched track lies strictly within the threshold by Euclidean
distance; the matched track is a nearest not-yet-matched one, its
`update(cx, cy)` is called and both the track index and the detection index
are marked consumed (so the track cannot match again this frame); an
observation with no track in range is skipped without error, and every
detection index left unmatched births a new track in step 3. -/
theorem greedy_association (md cx cy w h : ℚ) (ds : List Obs) (di : ℕ)
    (tracks : List ObjectKalman) (mT mD : List ℕ) :
    (scanTracks cx cy md mT tracks = none ↔
      ∀ (j : ℕ) (t : ObjectKalman), tracks.get? j = some t → j ∉ mT →
        ¬ (obsDistR cx cy t < (md : ℝ))) ∧
    (∀ b : ℚ × ℕ, scanTracks cx cy md mT tracks = some b →
      b.2 ∉ mT ∧
      (∃ t, tracks.get? b.2 = some t ∧ obsDistR cx cy t < (md : ℝ) ∧
        ∀ (j : ℕ) (t' : ObjectKalman), tracks.get? j = some t' → j ∉ mT →
          obsDistR cx cy t ≤ obsDistR cx cy t') ∧
      associateGo md ((cx, cy, w, h) :: ds) di tracks mT mD =
        (tracks.get? b.2).bind fun t => (t.update cx cy).bind fun t' =>
          associateGo md ds (di + 1) (tracks.set b.2 t') (mT ++ [b.2]) (mD ++ [di])) ∧
    (scanTracks cx cy md mT tracks = none →
      associateGo md ((cx, cy, w, h) :: ds) di tracks mT mD =
        associateGo md ds (di + 1) tracks mT mD) ∧
    (∀ (di' : ℕ) (bt : List ObjectKalman) (ids : List ℤ) (nid : ℤ), di' ∉ mD →
      birthGo ((cx, cy, w, h) :: ds) di' mD bt ids nid =
        birthGo ds (di' + 1) mD (bt ++ [ObjectKalman.init cx cy]) (ids ++ [nid]) (nid + 1)) := by
  refine ⟨?_, ?_, ?_, ?_⟩
  · rw [scanTracks_none_iff]
    constructor
    · intro hall j t hj hnot hin
      exact hall j t hj hnot ((obsDistR_lt_iff cx cy md t).mp hin)
    · intro hall j t hj hnot hin
      exact hall j t hj hnot ((obsDistR_lt_iff cx cy md t).mpr hin)
  · intro b hb
    obtain ⟨hnot, ⟨t, hget, hd⟩, hth, hmin⟩ := scanTracks_some cx cy md mT tracks b hb
    refine ⟨hnot, ⟨t, hget, ?_, ?_⟩, ?_⟩
    · exact (obsDistR_lt_iff cx cy md t).mpr ⟨hth.1, by rw [← hd]; exact hth.2⟩
    · intro j t' hj' hnot'
      exact (obsDistR_le_iff cx cy t t').mpr (by rw [← hd]; exact hmin j t' hj' hnot')
    · simp only [associateGo]
      rw [hb]
      rfl
  · intro hnone
    simp only [associateGo]
    rw [hnone]
  · intro di' bt ids nid hnot
    simp only [birthGo]
    rw [if_neg hnot]


/-- Witness for C4: observation (30,40) against two fresh tracks at
(100,100) and (0,0): the nearest unmatched track (index 1, distance 50 < 80)
is matched, updated and consumed. -/
theorem greedy_association_witness :
    associateGo 80 [(30, 40, 5, 5)] 0 [ObjectKalman.init 100 100, ObjectKalman.init 0 0] [] [] =
      (([ObjectKalman.init 100 100, ObjectKalman.init 0 0].get? 1).bind fun t =>
        (t.update 30 40).bind fun t' =>
          associateGo 80 [] 1 ([ObjectKalman.init 100 100, ObjectKalman.init 0 0].set 1 t')
            ([] ++ [1]) ([] ++ [0])) := by
  have hscan : scanTracks 30 40 80 [] [ObjectKalman.init 100 100, ObjectKalman.init 0 0] =
      some (2500, 1) := by
    simp only [scanTracks, scanTracksGo, List.not_mem_nil, if_false, ObjectKalman.init,
      Matrix.cons_val_zero, Matrix.cons_val_one, Matrix.head_cons, dist2,
      decide_eq_true_eq]
    rw [if_neg (by norm_num : ¬((0:ℚ) < 80 ∧ ((30:ℚ) - 100)^2 + ((40:ℚ) - 100)^2 < 80^2))]
    rw [if_pos (by norm_num : (0:ℚ) < 80 ∧ ((30:ℚ) - 0)^2 + ((40:ℚ) - 0)^2 < 80^2)]
    norm_num
  exact ((greedy_association 80 30 40 5 5 [] 0
    [ObjectKalman.init 100 100, ObjectKalman.init 0 0] [] []).2.1 (2500, 1) hscan).2.2

/-! ## Track lifecycle machinery -/

theorem associateGo_untouched (md : ℚ) :
    ∀ (ds : List Obs) (di : ℕ) (tracks : List ObjectKalman) (mT mD : List ℕ)
      (tr' : List ObjectKalman) (mT' mD' : List ℕ),
      associateGo md ds di tracks mT mD = some (tr', mT', mD') →
      tr'.length = tracks.length ∧ (∀ x ∈ mT, x ∈ mT') ∧
        ∀ ti : ℕ, ti ∉ mT' → tr'.get? ti = tracks.get? ti := by
  intro ds
  induction ds with
  | nil =>
      intro di tracks mT mD tr' mT' mD' hh
      simp only [associateGo, Option.some.injEq, Prod.mk.injEq] at hh
      obtain ⟨h1, h2, h3⟩ := hh
      rw [← h1, ← h2]
      exact ⟨rfl, fun x hx => hx, fun ti _ => rfl⟩
  | cons d ds ih =>
      intro di tracks mT mD tr' mT' mD' hh
      simp only [associateGo] at hh
      cases hscan : scanTracks d.1 d.2.1 md mT tracks with
      | none =>
          simp only [hscan] at hh
          exact ih (di + 1) tracks mT mD tr' mT' mD' hh
      | some b =>
          simp only [hscan] at hh
          cases hget : tracks.get? b.2 with
          | none =>
              rw [hget] at hh
              exact Option.noConfusion hh
          | some t =>
              rw [hget] at hh
              have hh2 : (t.update d.1 d.2.1).bind (fun t' =>
                  associateGo md ds (di + 1) (tracks.set b.2 t')
                    (mT ++ [b.2]) (mD ++ [di])) = some (tr', mT', mD') := hh
              cases hupd : t.update d.1 d.2.1 with
              | none =>
                  rw [hupd] at hh2
                  exact Option.noConfusion hh2
              | some t' =>
                  rw [hupd] at hh2
                  have hh3 : associateGo md ds (di + 1) (tracks.set b.2 t')
                      (mT ++ [b.2]) (mD ++ [di]) = some (tr', mT', mD') := hh2
                  obtain ⟨hlen, hsub, hunt⟩ :=
                    ih (di + 1) (tracks.set b.2 t') (mT ++ [b.2]) (mD ++ [di]) tr' mT' mD' hh3
                  refine ⟨by rw [hlen, List.length_set], ?_, ?_⟩
                  · intro x hx
                    exact hsub x (List.mem_append_left _ hx)
                  · intro ti hti
                    have hb2 : b.2 ∈ mT' :=
                      hsub b.2 (List.mem_append_right _ (List.mem_singleton_self _))
                    have hne : b.2 ≠ ti := fun he => hti (he ▸ hb2)
                    rw [hunt ti hti, List.get?_set_ne _ _ hne]

theorem birthGo_spec :
    ∀ (ds : List Obs) (di : ℕ) (mD : List ℕ) (tracks : List ObjectKalman)
      (ids : List ℤ) (nid : ℤ),
      ∃ (nts : List ObjectKalman) (m : ℕ),
        birthGo ds di mD tracks ids nid =
          (tracks ++ nts, ids ++ (List.range m).map (fun (k : ℕ) => nid + (k : ℤ)), nid + m) ∧
        nts.length = m ∧ ∀ t ∈ nts, t.missed = 0 := by
  intro ds
  induction ds with
  | nil =>
      intro di mD tracks ids nid
      exact ⟨[], 0, by simp [birthGo], rfl, by simp⟩
  | cons d ds ih =>
      intro di mD tracks ids nid
      by_cases hd : di ∈ mD
      · obtain ⟨nts, m, heq, hlen, hmiss⟩ := ih (di + 1) mD tracks ids nid
        refine ⟨nts, m, ?_, hlen, hmiss⟩
        simp only [birthGo]
        rw [if_pos hd]
        exact heq
      · obtain ⟨nts, m, heq, hlen, hmiss⟩ := ih (di + 1) mD
          (tracks ++ [ObjectKalman.init d.1 d.2.1]) (ids ++ [nid]) (nid + 1)
        refine ⟨ObjectKalman.init d.1 d.2.1 :: nts, m + 1, ?_, by simp [hlen], ?_⟩
        · simp only [birthGo]
          rw [if_neg hd]
          rw [heq]
          have hids : ids ++ [nid] ++ (List.range m).map (fun (k : ℕ) => nid + 1 + (k : ℤ)) =
              ids ++ (List.range (m + 1)).map (fun (k : ℕ) => nid + (k : ℤ)) := by
            rw [List.append_assoc]
            congr 1
            rw [List.range_succ_eq_map]
            simp only [List.map_cons, List.map_map, List.singleton_append]
            congr 1
            · norm_num
            · apply List.map_congr_left
              intro a _
              simp only [Function.comp_apply]
              push_cast
              ring
          rw [hids]
          have htr : tracks ++ [ObjectKalman.init d.1 d.2.1] ++ nts =
              tracks ++ (ObjectKalman.init d.1 d.2.1 :: nts) := by
            rw [List.append_assoc, List.singleton_append]
          rw [htr]
          have hnid : nid + 1 + (m : ℤ) = nid + ((m : ℕ) + 1 : ℕ) := by
            push_cast
            ring
          rw [hnid]
        · intro t ht
          rcases List.mem_cons.mp ht with rfl | ht'
          · rfl
          · exact hmiss t ht'

theorem mem_alive_iff (L : List ObjectKalman) (I : List ℤ) (hlen : L.length = I.length)
    (hnd : I.Nodup) (ti : ℕ) (t : ObjectKalman) (tid : ℤ)
    (ht : L.get? ti = some t) (hid : I.get? ti = some tid) :
    tid ∈ (((L.zip I).filter fun p => ¬ p.1.stale).map Prod.snd) ↔ ¬ (t.stale = true) := by
  constructor
  · intro h
    obtain ⟨p, hp, hps⟩ := List.mem_map.mp h
    obtain ⟨hpz, hpred⟩ := List.mem_filter.mp hp
    obtain ⟨k, hk⟩ := List.mem_iff_get?.mp hpz
    obtain ⟨hk1, hk2⟩ := (List.get?_zip_eq_some _ _ _ _).mp hk
    have hkti : k = ti := by
      have hklt : k < I.length := by
        by_contra hcon
        rw [List.get?_eq_none.mpr (le_of_not_lt hcon)] at hk2
        exact Option.noConfusion hk2
      apply List.get?_inj hklt hnd
      rw [hk2, hps, hid]
    rw [hkti, ht, Option.some.injEq] at hk1
    rw [hk1]
    simpa using hpred
  · intro hns
    have hzip : (L.zip I).get? ti = some (t, tid) :=
      (List.get?_zip_eq_some _ _ _ _).mpr ⟨ht, hid⟩
    refine List.mem_map.mpr ⟨(t, tid), List.mem_filter.mpr ⟨?_, ?_⟩, rfl⟩
    · exact List.get?_mem hzip
    · simpa using hns

/-! ## C2: missed counter and pruning -/

/-- C2 (amended): a track not matched in a frame has its state advanced by
`predict` only, so its `missedCount` increases by exactly 1; it is kept in
the pool exactly when the new count is still below the threshold
`MAX_MISSED = 10` — i.e. it is removed at the frame where `missedCount`
first reaches 10 (`stale = missed ≥ 10`), never earlier and never later. -/
theorem unmatched_miss_and_prune (st : StateEstimator) (dets : List Obs)
    (st1 : StateEstimator) (tr' : List ObjectKalman) (mT mD : List ℕ)
    (hinv : SEInv st)
    (hassoc : associate st.max_distance dets (st.tracks.map ObjectKalman.predict) =
      some (tr', mT, mD))
    (hstep : seStep st dets = some st1)
    (ti : ℕ) (t0 : ObjectKalman) (tid : ℤ)
    (hti : st.tracks.get? ti = some t0) (hid : st.track_ids.get? ti = some tid)
    (hunm : ti ∉ mT) :
    tr'.get? ti = some t0.predict ∧
    t0.predict.missed = t0.missed + 1 ∧
    (tid ∈ st1.track_ids ↔ t0.missed + 1 < MAX_MISSED) := by
  obtain ⟨hlen, hsub, hunt⟩ := associateGo_untouched st.max_distance dets 0
    (st.tracks.map ObjectKalman.predict) [] [] tr' mT mD hassoc
  have hget : tr'.get? ti = some t0.predict := by
    rw [hunt ti hunm, List.get?_map, hti]
    rfl
  refine ⟨hget, rfl, ?_⟩
  -- unfold the frame step using the association result
  simp only [seStep] at hstep
  rw [hassoc] at hstep
  have hstep2 : some (⟨((birthGo dets 0 mD tr' st.track_ids st.next_id).1.zip
        (birthGo dets 0 mD tr' st.track_ids st.next_id).2.1
      |>.filter fun p => ¬ p.1.stale).map Prod.fst,
      ((birthGo dets 0 mD tr' st.track_ids st.next_id).1.zip
        (birthGo dets 0 mD tr' st.track_ids st.next_id).2.1
      |>.filter fun p => ¬ p.1.stale).map Prod.snd,
      st.max_distance,
      (birthGo dets 0 mD tr' st.track_ids st.next_id).2.2⟩ : StateEstimator) =
      some st1 := hstep
  obtain ⟨nts, m, hbeq, hnlen, hmiss⟩ :=
    birthGo_spec dets 0 mD tr' st.track_ids st.next_id
  rw [hbeq] at hstep2
  rw [Option.some.injEq] at hstep2
  rw [← hstep2]
  -- split the zip of the birthed pool
  have hlen2 : tr'.length = st.track_ids.length := by
    rw [hlen, List.length_map]
    exact hinv.1
  have hzip : (tr' ++ nts).zip (st.track_ids ++
      (List.range m).map (fun (k : ℕ) => st.next_id + (k : ℤ))) =
      tr'.zip st.track_ids ++
        nts.zip ((List.range m).map (fun (k : ℕ) => st.next_id + (k : ℤ))) :=
    List.zip_append hlen2
  simp only [hzip, List.filter_append, List.map_append, List.mem_append]
  have hnotnew : tid ∉ (((nts.zip ((List.range m).map
      (fun (k : ℕ) => st.next_id + (k : ℤ)))).filter fun p => ¬ p.1.stale).map Prod.snd) := by
    intro hmem
    obtain ⟨p, hp, hps⟩ := List.mem_map.mp hmem
    have hpz := (List.mem_filter.mp hp).1
    have hp2 := (List.mem_zip hpz).2
    obtain ⟨k, -, hk⟩ := List.mem_map.mp hp2
    have htid : tid < st.next_id := hinv.2.2 tid (List.get?_mem hid)
    rw [hps] at hk
    omega
  have hmain := mem_alive_iff tr' st.track_ids hlen2 hinv.2.1 ti t0.predict tid hget hid
  constructor
  · intro hmem
    rcases hmem with hmem | hmem
    · have hns := hmain.mp hmem
      simp only [ObjectKalman.stale, ObjectKalman.predict, MAX_MISSED,
        decide_eq_true_eq] at hns ⊢
      omega
    · exact absurd hmem hnotnew
  · intro hlt
    left
    apply hmain.mpr
    simp only [ObjectKalman.stale, ObjectKalman.predict, MAX_MISSED,
      decide_eq_true_eq] at hlt ⊢
    omega

/-- Witness for C2: a track with `missedCount = 9` that goes unmatched on an
empty frame has its count raised to 10 and is removed from the pool. -/
theorem unmatched_miss_and_prune_witness :
    ([(⟨![5,5,0,0], P0, 9, 9⟩ : ObjectKalman).predict].get? 0 =
        some (⟨![5,5,0,0], P0, 9, 9⟩ : ObjectKalman).predict) ∧
      (⟨![5,5,0,0], P0, 9, 9⟩ : ObjectKalman).predict.missed = 9 + 1 ∧
      ((0 : ℤ) ∈ (⟨[], [], 80, 1⟩ : StateEstimator).track_ids ↔ 9 + 1 < MAX_MISSED) :=
  unmatched_miss_and_prune ⟨[⟨![5,5,0,0], P0, 9, 9⟩], [0], 80, 1⟩ [] ⟨[], [], 80, 1⟩
    [(⟨![5,5,0,0], P0, 9, 9⟩ : ObjectKalman).predict] [] []
    ⟨rfl, List.nodup_singleton 0, by simp⟩ rfl rfl 0
    ⟨![5,5,0,0], P0, 9, 9⟩ 0 rfl rfl (by simp)

/-- Counterexample for C2 as stated: a track born from one detection and
then never matched is still in the pool after 9 further empty frames (with
`missedCount = 9`) but is removed on the 10th — the frame where
`missedCount` first reaches 10, not 11. -/
theorem prune_at_ten_counterexample :
    ((seStep (mkStateEstimator 80) [(5,5,10,10)]).bind (emptyFrames 9)).map
        (fun s => (s.track_ids, s.tracks.map (fun t => t.missed))) =
      some ([0], [9]) ∧
    ((seStep (mkStateEstimator 80) [(5,5,10,10)]).bind (emptyFrames 10)).map
        (fun s => s.track_ids) = some [] :=
  ⟨rfl, rfl⟩

/-! ## C9: identifier uniqueness and monotonicity -/

/-- C9 (confirmed): one frame step preserves the pool invariant (parallel
lists, pairwise-distinct identifiers all below `next_id`); `next_id` never
decreases; every surviving identifier is either an old one or a freshly
assigned one in `[next_id, next_id')`; and the identifiers appended at birth
are exactly `next_id, next_id+1, …` in observation order — so identifiers
are unique, immutable, increasing, and never reused even after pruning. -/
theorem track_id_uniqueness (st : StateEstimator) (dets : List Obs)
    (st1 : StateEstimator) (hinv : SEInv st) (hstep : seStep st dets = some st1) :
    SEInv st1 ∧ st.next_id ≤ st1.next_id ∧
      (∀ tid ∈ st1.track_ids, tid ∈ st.track_ids ∨
        (st.next_id ≤ tid ∧ tid < st1.next_id)) ∧
      (∀ (tr' : List ObjectKalman) (mT mD : List ℕ),
        associate st.max_distance dets (st.tracks.map ObjectKalman.predict) =
          some (tr', mT, mD) →
        ∃ m : ℕ, st1.next_id = st.next_id + m ∧
          (birthGo dets 0 mD tr' st.track_ids st.next_id).2.1 =
            st.track_ids ++ (List.range m).map (fun (k : ℕ) => st.next_id + (k : ℤ))) := by
  simp only [seStep] at hstep
  cases hassoc : associate st.max_distance dets (st.tracks.map ObjectKalman.predict) with
  | none =>
      rw [hassoc] at hstep
      exact Option.noConfusion hstep
  | some r =>
      obtain ⟨tr', mT, mD⟩ := r
      rw [hassoc] at hstep
      have hstep2 : some (⟨((birthGo dets 0 mD tr' st.track_ids st.next_id).1.zip
            (birthGo dets 0 mD tr' st.track_ids st.next_id).2.1
          |>.filter fun p => ¬ p.1.stale).map Prod.fst,
          ((birthGo dets 0 mD tr' st.track_ids st.next_id).1.zip
            (birthGo dets 0 mD tr' st.track_ids st.next_id).2.1
          |>.filter fun p => ¬ p.1.stale).map Prod.snd,
          st.max_distance,
          (birthGo dets 0 mD tr' st.track_ids st.next_id).2.2⟩ : StateEstimator) =
          some st1 := hstep
      obtain ⟨nts, m, hbeq, hnlen, hmiss⟩ :=
        birthGo_spec dets 0 mD tr' st.track_ids st.next_id
      rw [hbeq] at hstep2
      rw [Option.some.injEq] at hstep2
      obtain ⟨hlen0, -, -⟩ := associateGo_untouched st.max_distance dets 0
        (st.tracks.map ObjectKalman.predict) [] [] tr' mT mD hassoc
      have hlen2 : tr'.length = st.track_ids.length := by
        rw [hlen0, List.length_map]
        exact hinv.1
      have hlen3 : (tr' ++ nts).length =
          (st.track_ids ++ (List.range m).map
            (fun (k : ℕ) => st.next_id + (k : ℤ))).length := by
        simp [hlen2, hnlen]
      have hnodup3 : (st.track_ids ++ (List.range m).map
          (fun (k : ℕ) => st.next_id + (k : ℤ))).Nodup := by
        rw [List.nodup_append]
        refine ⟨hinv.2.1, ?_, ?_⟩
        · refine List.Nodup.map ?_ (List.nodup_range m)
          intro a b hab
          have hab2 : st.next_id + (a : ℤ) = st.next_id + (b : ℤ) := hab
          omega
        · intro a ha hb
          obtain ⟨k, -, hk⟩ := List.mem_map.mp hb
          have := hinv.2.2 a ha
          omega
      have hids1 : st1.track_ids = ((tr' ++ nts).zip (st.track_ids ++
          (List.range m).map (fun (k : ℕ) => st.next_id + (k : ℤ)))
          |>.filter fun p => ¬ p.1.stale).map Prod.snd := by
        rw [← hstep2]
      have hsubl : List.Sublist st1.track_ids (st.track_ids ++
          (List.range m).map (fun (k : ℕ) => st.next_id + (k : ℤ))) := by
        rw [hids1]
        have h1 := (List.filter_sublist (l := (tr' ++ nts).zip (st.track_ids ++
          (List.range m).map (fun (k : ℕ) => st.next_id + (k : ℤ))))
          (p := fun p => ¬ p.1.stale)).map Prod.snd
        rwa [List.map_snd_zip _ _ (le_of_eq hlen3.symm)] at h1
      have hnext : st1.next_id = st.next_id + m := by
        rw [← hstep2]
      refine ⟨⟨?_, ?_, ?_⟩, ?_, ?_, ?_⟩
      · rw [← hstep2]
        simp
      · exact hsubl.nodup hnodup3
      · intro i hi
        rcases List.mem_append.mp (hsubl.subset hi) with h | h
        · have := hinv.2.2 i h
          rw [hnext]
          omega
        · obtain ⟨k, hk1, hk2⟩ := List.mem_map.mp h
          rw [hnext]
          have : k < m := List.mem_range.mp hk1
          omega
      · rw [hnext]
        omega
      · intro tid htid
        rcases List.mem_append.mp (hsubl.subset htid) with h | h
        · exact Or.inl h
        · obtain ⟨k, hk1, hk2⟩ := List.mem_map.mp h
          have : k < m := List.mem_range.mp hk1
          refine Or.inr ⟨by omega, ?_⟩
          rw [hnext]
          omega
      · intro tr'' mT'' mD'' hassoc2
        rw [Option.some.injEq, Prod.mk.injEq] at hassoc2
        obtain ⟨he1, he2⟩ := hassoc2
        rw [Prod.mk.injEq] at he2
        refine ⟨m, hnext, ?_⟩
        rw [← he1, ← he2.2, hbeq]

/-- Witness for C9, the spec scenario: two simultaneous observations at
(50,50) and (400,50) against an empty pool birth two tracks with the
distinct increasing identifiers 0 and 1, in observation order. -/
theorem track_id_uniqueness_witness :
    SEInv ⟨[ObjectKalman.init 50 50, ObjectKalman.init 400 50], [0, 1], 80, 2⟩ ∧
      (birthGo [(50,50,20,20), (400,50,20,20)] 0 [] [] [] 0).2.1 = [0, 1] := by
  have h := track_id_uniqueness ⟨[], [], 80, 0⟩ [(50,50,20,20), (400,50,20,20)]
    ⟨[ObjectKalman.init 50 50, ObjectKalman.init 400 50], [0, 1], 80, 2⟩
    ⟨rfl, List.nodup_nil, by simp⟩ rfl
  refine ⟨h.1, ?_⟩
  obtain ⟨m, hm, hids⟩ := h.2.2.2 [] [] [] rfl
  have hm2 : (2 : ℤ) = 0 + (m : ℤ) := hm
  have hm3 : m = 2 := by omega
  have hids2 : (birthGo [(50,50,20,20), (400,50,20,20)] 0 [] [] [] 0).2.1 =
      [] ++ (List.range m).map (fun (k : ℕ) => (0 : ℤ) + (k : ℤ)) := hids
  rw [hids2, hm3]
  decide

/-! ## C8: size lookup for live-track snapshots -/

theorem sizeLookupFold_spec (px py : ℚ) :
    ∀ (dm : List ((ℤ × ℤ) × (ℚ × ℚ))) (acc : ℚ × (ℚ × ℚ)),
      (dm.foldl (fun best e =>
          let d2 := dist2 px py (e.1.1 : ℚ) (e.1.2 : ℚ)
          if d2 < best.1 then (d2, e.2) else best) acc).1 ≤ acc.1 ∧
      (∀ e ∈ dm, (dm.foldl (fun best e =>
          let d2 := dist2 px py (e.1.1 : ℚ) (e.1.2 : ℚ)
          if d2 < best.1 then (d2, e.2) else best) acc).1 ≤
            dist2 px py (e.1.1 : ℚ) (e.1.2 : ℚ)) ∧
      ((dm.foldl (fun best e =>
          let d2 := dist2 px py (e.1.1 : ℚ) (e.1.2 : ℚ)
          if d2 < best.1 then (d2, e.2) else best) acc) = acc ∨
        ∃ e ∈ dm, (dm.foldl (fun best e =>
          let d2 := dist2 px py (e.1.1 : ℚ) (e.1.2 : ℚ)
          if d2 < best.1 then (d2, e.2) else best) acc) =
            (dist2 px py (e.1.1 : ℚ) (e.1.2 : ℚ), e.2) ∧
          dist2 px py (e.1.1 : ℚ) (e.1.2 : ℚ) < acc.1) := by
  intro dm
  induction dm with
  | nil =>
      intro acc
      exact ⟨le_refl _, by simp, Or.inl rfl⟩
  | cons e dm ih =>
      intro acc
      by_cases hc : dist2 px py (e.1.1 : ℚ) (e.1.2 : ℚ) < acc.1
      · have hstep : ∀ l : List ((ℤ × ℤ) × (ℚ × ℚ)), (e :: l).foldl (fun best e =>
            let d2 := dist2 px py (e.1.1 : ℚ) (e.1.2 : ℚ)
            if d2 < best.1 then (d2, e.2) else best) acc =
            l.foldl (fun best e =>
              let d2 := dist2 px py (e.1.1 : ℚ) (e.1.2 : ℚ)
              if d2 < best.1 then (d2, e.2) else best)
              (dist2 px py (e.1.1 : ℚ) (e.1.2 : ℚ), e.2) := by
          intro l
          simp only [List.foldl_cons]
          rw [if_pos hc]
        rw [hstep]
        obtain ⟨h1, h2, h3⟩ := ih (dist2 px py (e.1.1 : ℚ) (e.1.2 : ℚ), e.2)
        refine ⟨le_of_lt (lt_of_le_of_lt h1 hc), ?_, ?_⟩
        · intro e' he'
          rcases List.mem_cons.mp he' with rfl | he''
          · exact h1
          · exact h2 e' he''
        · rcases h3 with h3 | ⟨e', he', heq, hlt⟩
          · exact Or.inr ⟨e, List.mem_cons_self e dm, h3, hc⟩
          · exact Or.inr ⟨e', List.mem_cons_of_mem e he', heq, lt_trans hlt hc⟩
      · have hstep : ∀ l : List ((ℤ × ℤ) × (ℚ × ℚ)), (e :: l).foldl (fun best e =>
            let d2 := dist2 px py (e.1.1 : ℚ) (e.1.2 : ℚ)
            if d2 < best.1 then (d2, e.2) else best) acc =
            l.foldl (fun best e =>
              let d2 := dist2 px py (e.1.1 : ℚ) (e.1.2 : ℚ)
              if d2 < best.1 then (d2, e.2) else best) acc := by
          intro l
          simp only [List.foldl_cons]
          rw [if_neg hc]
        rw [hstep]
        obtain ⟨h1, h2, h3⟩ := ih acc
        refine ⟨h1, ?_, ?_⟩
        · intro e' he'
          rcases List.mem_cons.mp he' with rfl | he''
          · exact le_trans h1 (le_of_not_lt hc)
          · exact h2 e' he''
        · rcases h3 with h3 | ⟨e', he', heq, hlt⟩
          · exact Or.inl h3
          · exact Or.inr ⟨e', List.mem_cons_of_mem e he', heq, hlt⟩

/-- C8 (amended): each live track's reported `(w, h)` comes from the step-5
dictionary keyed by the Python-rounded observation centers (later duplicates
overwrite the value); the entry used is one whose rounded center is nearest
to the track's estimated position, provided that distance is strictly below
the hard-coded bound 9999; the fallback `(40, 40)` is reported when the
observation list is empty — and also whenever every rounded center is at
distance at least 9999 from the track. -/
theorem size_lookup_spec :
    (∀ (st : StateEstimator) (dets : List Obs),
      StateEstimator.update st dets = (seStep st dets).bind fun st1 =>
        some (st1, (st1.tracks.zip st1.track_ids).map fun p =>
          snapshot (buildDetMap dets) p.1 p.2)) ∧
    (∀ (dm : List ((ℤ × ℤ) × (ℚ × ℚ))) (t : ObjectKalman) (tid : ℤ),
      ((snapshot dm t tid).w, (snapshot dm t tid).h) = sizeLookup dm (t.x 0) (t.x 1)) ∧
    (∀ px py : ℚ, sizeLookup [] px py = (40, 40)) ∧
    (∀ (dm : List ((ℤ × ℤ) × (ℚ × ℚ))) (px py : ℚ),
      (∀ e ∈ dm, ¬ (hypotR (px - (e.1.1 : ℚ)) (py - (e.1.2 : ℚ)) < ((9999 : ℚ) : ℝ))) →
      sizeLookup dm px py = (40, 40)) ∧
    (∀ (dm : List ((ℤ × ℤ) × (ℚ × ℚ))) (px py : ℚ) (e0 : (ℤ × ℤ) × (ℚ × ℚ)),
      e0 ∈ dm → hypotR (px - (e0.1.1 : ℚ)) (py - (e0.1.2 : ℚ)) < ((9999 : ℚ) : ℝ) →
      ∃ e ∈ dm, sizeLookup dm px py = e.2 ∧
        hypotR (px - (e.1.1 : ℚ)) (py - (e.1.2 : ℚ)) < ((9999 : ℚ) : ℝ) ∧
        ∀ e' ∈ dm, hypotR (px - (e.1.1 : ℚ)) (py - (e.1.2 : ℚ)) ≤
          hypotR (px - (e'.1.1 : ℚ)) (py - (e'.1.2 : ℚ))) := by
  have hbr : ∀ (px py : ℚ) (a b : ℤ),
      hypotR (px - (a : ℚ)) (py - (b : ℚ)) < ((9999 : ℚ) : ℝ) ↔
        dist2 px py (a : ℚ) (b : ℚ) < 9999 ^ 2 := by
    intro px py a b
    rw [hypotR_lt_iff]
    unfold dist2
    constructor
    · rintro ⟨-, h⟩
      exact h
    · intro h
      exact ⟨by norm_num, h⟩
  have hble : ∀ (px py : ℚ) (a b c d : ℤ),
      hypotR (px - (a : ℚ)) (py - (b : ℚ)) ≤ hypotR (px - (c : ℚ)) (py - (d : ℚ)) ↔
        dist2 px py (a : ℚ) (b : ℚ) ≤ dist2 px py (c : ℚ) (d : ℚ) := by
    intro px py a b c d
    unfold dist2
    exact hypotR_le_hypotR_iff _ _ _ _
  refine ⟨fun st dets => rfl, fun dm t tid => rfl, fun px py => rfl, ?_, ?_⟩
  · intro dm px py hall
    unfold sizeLookup
    obtain ⟨h1, h2, h3⟩ := sizeLookupFold_spec px py dm ((9999 : ℚ) ^ 2, (40, 40))
    rcases h3 with h3 | ⟨e, he, heq, hlt⟩
    · rw [h3]
    · exact absurd ((hbr px py e.1.1 e.1.2).mpr hlt) (hall e he)
  · intro dm px py e0 he0 hlt0
    unfold sizeLookup
    obtain ⟨h1, h2, h3⟩ := sizeLookupFold_spec px py dm ((9999 : ℚ) ^ 2, (40, 40))
    rcases h3 with h3 | ⟨e, he, heq, hlt⟩
    · exfalso
      have hd0 := h2 e0 he0
      rw [h3] at hd0
      exact absurd ((hbr px py e0.1.1 e0.1.2).mp hlt0) (not_lt.mpr hd0)
    · refine ⟨e, he, by rw [heq], (hbr px py e.1.1 e.1.2).mpr hlt, ?_⟩
      intro e' he'
      apply (hble px py e.1.1 e.1.2 e'.1.1 e'.1.2).mpr
      have := h2 e' he'
      rw [heq] at this
      exact this

/-- Witness for C8 (amended): a single entry with rounded center (3,4) at
distance 5 from the track position (0,0) is within the 9999 bound, so its
size (7,8) is reported. -/
theorem size_lookup_spec_witness :
    sizeLookup [((3, 4), (7, 8))] 0 0 = ((7 : ℚ), (8 : ℚ)) := by
  have h := size_lookup_spec.2.2.2.2 [((3, 4), (7, 8))] 0 0 ((3, 4), (7, 8))
    (List.mem_singleton_self _)
    (by rw [hypotR_lt_iff]; norm_num)
  obtain ⟨e, he, heq, -, -⟩ := h
  have he2 : e = ((3, 4), (7, 8)) := List.mem_singleton.mp he
  rw [heq, he2]

/-- Counterexample for C8 as stated: with a non-empty observation list whose
only observation sits 20000 units away from an existing track, that track
still reports the fallback size (40,40) — the fallback is not reported
"iff the frame's observation list is empty".  (The newly birthed track at
the observation's position reports (55,66).) -/
theorem size_fallback_counterexample :
    ∃ (st1 : StateEstimator) (out : List TrackState),
      StateEstimator.update ⟨[ObjectKalman.init 0 0], [0], 80, 1⟩ [(20000, 0, 55, 66)] =
        some (st1, out) ∧
      out.map (fun r => (r.w, r.h)) = [((40 : ℚ), (40 : ℚ)), (55, 66)] := by
  have hpred : (ObjectKalman.init 0 0).predict =
      ⟨![0,0,0,0], Fmat * P0 * Fmat.transpose + Qmat, 1, 1⟩ := by
    simp only [ObjectKalman.init, ObjectKalman.predict]
    congr 1
    funext i
    fin_cases i <;>
      simp [Fmat, Matrix.mulVec, Matrix.dotProduct, Fin.sum_univ_four]
  have hstep : seStep ⟨[ObjectKalman.init 0 0], [0], 80, 1⟩ [(20000, 0, 55, 66)] =
      some ⟨[(ObjectKalman.init 0 0).predict, ObjectKalman.init 20000 0], [0, 1], 80, 2⟩ := by
    simp only [seStep, associate, associateGo, scanTracks, scanTracksGo, List.map]
    rw [hpred]
    simp only [List.mem_nil_iff, if_false, dist2, decide_eq_true_eq,
      Matrix.cons_val_zero, Matrix.cons_val_one, Matrix.head_cons]
    rw [if_neg (by norm_num : ¬((0:ℚ) < 80 ∧
      ((20000:ℚ) - 0)^2 + ((0:ℚ) - 0)^2 < 80^2))]
    simp only [birthGo, List.mem_nil_iff, if_false]
    rw [← hpred]
    simp [ObjectKalman.stale, ObjectKalman.predict, ObjectKalman.init, MAX_MISSED]
  refine ⟨⟨[(ObjectKalman.init 0 0).predict, ObjectKalman.init 20000 0], [0, 1], 80, 2⟩,
    [snapshot (buildDetMap [(20000, 0, 55, 66)]) (ObjectKalman.init 0 0).predict 0,
     snapshot (buildDetMap [(20000, 0, 55, 66)]) (ObjectKalman.init 20000 0) 1], ?_, ?_⟩
  · show (seStep _ _).bind _ = _
    rw [hstep]
    rfl
  · have hdm : buildDetMap [(20000, 0, 55, 66)] = [((20000, 0), (55, 66))] := by
      simp only [buildDetMap, List.foldl, dmInsert, List.any_nil, Bool.false_eq_true,
        if_false, List.nil_append]
      have hr1 : pyRound 20000 = 20000 := by norm_num [pyRound]
      have hr2 : pyRound 0 = 0 := by norm_num [pyRound]
      rw [hr1, hr2]
    have h1 : sizeLookup [((20000, 0), (55, 66))] 0 0 = (40, 40) := by
      unfold sizeLookup
      simp only [List.foldl]
      rw [if_neg (by norm_num [dist2] : ¬ dist2 0 0 ((20000 : ℤ) : ℚ) ((0 : ℤ) : ℚ) <
        (9999 : ℚ) ^ 2)]
    have h2 : sizeLookup [((20000, 0), (55, 66))] 20000 0 = (55, 66) := by
      unfold sizeLookup
      simp only [List.foldl]
      rw [if_pos (by norm_num [dist2] : dist2 20000 0 ((20000 : ℤ) : ℚ) ((0 : ℤ) : ℚ) <
        (9999 : ℚ) ^ 2)]
    simp only [List.map, snapshot, hdm, hpred]
    simp only [ObjectKalman.init, Matrix.cons_val_zero, Matrix.cons_val_one,
      Matrix.head_cons]
    rw [h1, h2]
